import Mathlib

/-!
# Verification of the aeneas DTW engine (`aeneas/dtw.py`)

A shallow embedding of the dynamic-time-warping engine of the aeneas
repository, together with proofs about it.

Modelling conventions:

* Matrices are represented as functions `Nat → Nat → α` over an arbitrary
  `LinearOrderedAddCommGroup α` (the float arithmetic of the source is
  modelled as exact arithmetic; the dynamic programming only adds, compares
  and takes minima, so instantiating `α := ℝ` or `α := ℚ` covers every
  real-valued cost matrix, while `α := ℤ` gives executable witnesses).
* The pairwise cosine-distance kernel (`1 - u·v/(‖u‖‖v‖)`, dtw.py lines
  545-562 and 374-406) needs a square root, so the dynamic-programming layer
  is parameterised by the resulting cost matrix `C : Nat → Nat → α`; the
  scalar kernel itself is embedded separately (`cosineCost` below) with the
  square-root function as a parameter, and with `Option` recording the
  division by a zero norm product, which is undefined in the source
  (it produces an IEEE NaN at run time).
* `numpy.inf` guard values of the Stripe engine are modelled by `⊤ : WithTop α`.
* The rows of the Stripe engine's banded matrices have exactly `delta`
  entries, and the backtracking loop can escape the band and read past a
  row's end: the source then raises `IndexError` and `compute_path` fails
  without storing a result.  This error path is modelled by `Option`: row
  reads of the backtracking go through `pyRowRead` (Python list-indexing
  semantics, `none` on `IndexError`), and `stripeBestPathE`,
  `enginePath` and `alignerComputePath` propagate the failure.
* The in-place accumulation (`_compute_acm_in_place`) overwrites the cost
  matrix row by row, reading each original row from a copy `current_row`;
  its value semantics is captured by the row-recursive functions below, and
  the mutation itself is modelled once more, explicitly, on a heap of
  matrices (see the `Heap` section) in order to state the frame property.
-/

set_option linter.unusedVariables false

namespace AeneasDTW

/-- `numpy.argmin` on a three-element list `[c0, c1, c2]`:
index of the minimum, first index on ties
(dtw.py lines 506 and 639: `min_cost = numpy.argmin(costs)`). -/
def argmin3 {α : Type} [LinearOrder α] (c0 c1 c2 : α) : Nat :=
  if c0 ≤ c1 then (if c0 ≤ c2 then 0 else 2) else (if c1 ≤ c2 then 1 else 2)

/-- Index of the first minimal element of a list (the specification-side
description of the tie-breaking contract: "pick the index of the minimum,
taking the first such index on ties"). -/
def firstMinIdx {α : Type} [LinearOrder α] : List α → Nat
  | [] => 0
  | [_] => 0
  | x :: y :: rest =>
      let k := firstMinIdx (y :: rest)
      if x ≤ (y :: rest).getD k x then 0 else k + 1

/-- One DTW step: the successor cell differs by `(1,0)`, `(0,1)` or `(1,1)`. -/
def dtwStep (p q : Nat × Nat) : Prop :=
  (q.1 = p.1 + 1 ∧ q.2 = p.2) ∨ (q.1 = p.1 ∧ q.2 = p.2 + 1) ∨
    (q.1 = p.1 + 1 ∧ q.2 = p.2 + 1)

instance (p q : Nat × Nat) : Decidable (dtwStep p q) := by
  unfold dtwStep; infer_instance

/-- A monotone path over an `n × m` cost matrix: starts at `(0,0)`, ends at
`(n-1, m-1)`, consecutive cells differ by an allowed DTW step. -/
def ValidPath (n m : Nat) (P : List (Nat × Nat)) : Prop :=
  P.head? = some (0, 0) ∧ P.getLast? = some (n - 1, m - 1) ∧ P.Chain' dtwStep

instance (n m : Nat) (P : List (Nat × Nat)) : Decidable (ValidPath n m P) := by
  unfold ValidPath; infer_instance

/-- Total cost of a path over the cost matrix `C`. -/
def pathCost {α : Type} [LinearOrderedAddCommGroup α] (C : Nat → Nat → α)
    (P : List (Nat × Nat)) : α :=
  (P.map fun p => C p.1 p.2).sum

/-! ## Exact engine: accumulated cost matrix

`DTWExact._compute_acm_in_place` (dtw.py lines 571-589) accumulates the cost
matrix in place.  Row `0` becomes its prefix sums; every later row `i` is
rebuilt from the untouched copy `current_row` of row `i` and the already
accumulated row `i-1`.  The three functions below are that computation, row
by row; `acm C i j` is the value the in-place algorithm leaves at cell
`(i, j)`. -/

/-- Row `0` of the accumulated matrix: prefix sums
(`cost_matrix[0][j] = current_row[j] + cost_matrix[0][j-1]`, line 578). -/
def acmFirstRow {α : Type} [LinearOrderedAddCommGroup α] (C : Nat → Nat → α) : Nat → α
  | 0 => C 0 0
  | j + 1 => C 0 (j + 1) + acmFirstRow C j

/-- Row `i` of the accumulated matrix (for `i ≥ 1`), built from the
accumulated previous row `prev`
(lines 581-587: `cost_matrix[i][0] = cost_matrix[i-1][0] + current_row[0]`,
then `current_row[j] + min(A[i-1][j], A[i][j-1], A[i-1][j-1])`). -/
def acmNextRow {α : Type} [LinearOrderedAddCommGroup α] (C : Nat → Nat → α) (i : Nat)
    (prev : Nat → α) : Nat → α
  | 0 => prev 0 + C i 0
  | j + 1 => C i (j + 1) + min (prev (j + 1)) (min (acmNextRow C i prev j) (prev j))

/-- All rows of the accumulated cost matrix of the Exact engine. -/
def acmRows {α : Type} [LinearOrderedAddCommGroup α] (C : Nat → Nat → α) : Nat → Nat → α
  | 0 => acmFirstRow C
  | i + 1 => acmNextRow C (i + 1) (acmRows C i)

/-- `acm C i j`: entry `(i, j)` of the accumulated cost matrix computed by
`DTWExact._compute_acm_in_place` on the cost matrix `C`. -/
def acm {α : Type} [LinearOrderedAddCommGroup α] (C : Nat → Nat → α) (i j : Nat) : α :=
  acmRows C i j

@[simp] theorem acm_zero_zero {α : Type} [LinearOrderedAddCommGroup α]
    (C : Nat → Nat → α) : acm C 0 0 = C 0 0 := rfl

@[simp] theorem acm_zero_succ {α : Type} [LinearOrderedAddCommGroup α]
    (C : Nat → Nat → α) (j : Nat) :
    acm C 0 (j + 1) = C 0 (j + 1) + acm C 0 j := rfl

@[simp] theorem acm_succ_zero {α : Type} [LinearOrderedAddCommGroup α]
    (C : Nat → Nat → α) (i : Nat) :
    acm C (i + 1) 0 = acm C i 0 + C (i + 1) 0 := rfl

@[simp] theorem acm_succ_succ {α : Type} [LinearOrderedAddCommGroup α]
    (C : Nat → Nat → α) (i j : Nat) :
    acm C (i + 1) (j + 1) =
      C (i + 1) (j + 1) +
        min (acm C i (j + 1)) (min (acm C (i + 1) j) (acm C i j)) := rfl

/-! ## Exact engine: backtracking

`DTWExact._compute_best_path` (dtw.py lines 612-647) walks from
`(n-1, m-1)` back to `(0,0)`: at `i = 0` it steps left, at `j = 0` it steps
up, and at an interior cell it evaluates the three predecessors in the order
`[(i-1,j), (i,j-1), (i-1,j-1)]` and moves to the first argmin.  The list is
built end-to-start and reversed on return. -/

/-- Backtracking inside row `0`: only left steps (lines 622-624). -/
def backtrackFirstRow : Nat → List (Nat × Nat)
  | 0 => [(0, 0)]
  | j + 1 => (0, j + 1) :: backtrackFirstRow j

/-- Backtracking from a cell of row `i+1`, given the backtracking function
`prevRow` for row `i` (lines 625-643; at `j = 0` the code steps up, at an
interior cell it takes the first argmin of `[up, left, diag]`). -/
def backtrackNextRow {α : Type} [LinearOrderedAddCommGroup α] (A : Nat → Nat → α)
    (i : Nat) (prevRow : Nat → List (Nat × Nat)) : Nat → List (Nat × Nat)
  | 0 => (i + 1, 0) :: prevRow 0
  | j + 1 => (i + 1, j + 1) ::
      (match argmin3 (A i (j + 1)) (A (i + 1) j) (A i j) with
        | 0 => prevRow (j + 1)
        | 1 => backtrackNextRow A i prevRow j
        | _ => prevRow j)

/-- Backward path (end to start) of the Exact backtracking, from cell `(i, j)`. -/
def backtrackRows {α : Type} [LinearOrderedAddCommGroup α] (A : Nat → Nat → α) :
    Nat → Nat → List (Nat × Nat)
  | 0 => backtrackFirstRow
  | i + 1 => backtrackNextRow A i (backtrackRows A i)

/-- `DTWExact._compute_best_path`: the returned (forward) path over an
`n × m` accumulated matrix `A`. -/
def computeBestPath {α : Type} [LinearOrderedAddCommGroup α] (A : Nat → Nat → α)
    (n m : Nat) : List (Nat × Nat) :=
  (backtrackRows A (n - 1) (m - 1)).reverse

/-- The predecessor cell the Exact backtracking loop chooses from `(i, j)`
(one loop iteration, lines 621-643). -/
def predExact {α : Type} [LinearOrderedAddCommGroup α] (A : Nat → Nat → α) :
    Nat × Nat → Nat × Nat
  | (0, j) => (0, j - 1)
  | (i + 1, 0) => (i, 0)
  | (i + 1, j + 1) =>
      match argmin3 (A i (j + 1)) (A (i + 1) j) (A i j) with
      | 0 => (i, j + 1)
      | 1 => (i + 1, j)
      | _ => (i, j)

/-! ## Properties of `argmin3` -/

theorem argmin3_lt_three {α : Type} [LinearOrder α] (c0 c1 c2 : α) :
    argmin3 c0 c1 c2 < 3 := by
  unfold argmin3; split_ifs <;> omega

/-- The candidate selected by `argmin3` is the minimum of the three. -/
theorem argmin3_getD {α : Type} [LinearOrder α] (c0 c1 c2 : α) :
    [c0, c1, c2].getD (argmin3 c0 c1 c2) c2 = min c0 (min c1 c2) := by
  unfold argmin3
  split_ifs with h01 h02 h12
  · simp only [List.getD, List.get?, Option.getD]
    rw [min_eq_left (le_min h01 h02)]
  · simp only [List.getD, List.get?, Option.getD]
    rw [min_eq_right ((le_of_not_le h02).trans h01), min_eq_right (le_of_not_le h02)]
  · simp only [List.getD, List.get?, Option.getD]
    rw [min_eq_left h12, min_eq_right (le_of_not_le h01)]
  · simp only [List.getD, List.get?, Option.getD]
    rw [min_eq_right (le_of_not_le h12),
      min_eq_right ((le_of_not_le h12).trans (le_of_not_le h01))]

/-- `argmin3` is the first-argmin rule of the specification. -/
theorem argmin3_eq_firstMinIdx {α : Type} [LinearOrder α] (c0 c1 c2 : α) :
    argmin3 c0 c1 c2 = firstMinIdx [c0, c1, c2] := by
  by_cases h12 : c1 ≤ c2
  · by_cases h01 : c0 ≤ c1
    · have h02 : c0 ≤ c2 := h01.trans h12
      simp [argmin3, firstMinIdx, h01, h02, h12, List.getD]
    · simp [argmin3, firstMinIdx, h01, h12, List.getD]
  · by_cases h02 : c0 ≤ c2
    · have h01 : c0 ≤ c1 := h02.trans (le_of_not_le h12)
      simp [argmin3, firstMinIdx, h01, h02, h12, List.getD]
    · by_cases h01 : c0 ≤ c1
      · simp [argmin3, firstMinIdx, h01, h02, h12, List.getD]
      · simp [argmin3, firstMinIdx, h01, h02, h12, List.getD]

/-! ## Structure of the Exact backtracking -/

/-- One iteration of the Exact backtracking loop: away from `(0,0)` the
backward list is the current cell followed by the backward list from the
chosen predecessor. -/
theorem backtrackRows_cons {α : Type} [LinearOrderedAddCommGroup α]
    (A : Nat → Nat → α) (i j : Nat) (h : ¬(i = 0 ∧ j = 0)) :
    backtrackRows A i j =
      (i, j) :: backtrackRows A (predExact A (i, j)).1 (predExact A (i, j)).2 := by
  match i, j with
  | 0, 0 => exact absurd ⟨rfl, rfl⟩ h
  | 0, j + 1 => rfl
  | i + 1, 0 => rfl
  | i + 1, j + 1 =>
      rcases hm : argmin3 (A i (j + 1)) (A (i + 1) j) (A i j) with _ | _ | m <;>
        simp [backtrackRows, backtrackNextRow, predExact, hm]

theorem backtrackRows_head {α : Type} [LinearOrderedAddCommGroup α]
    (A : Nat → Nat → α) (i j : Nat) :
    (backtrackRows A i j).head? = some (i, j) := by
  match i, j with
  | 0, 0 => rfl
  | 0, j + 1 => rfl
  | i + 1, 0 => rfl
  | i + 1, j + 1 => rfl

theorem backtrackRows_ne_nil {α : Type} [LinearOrderedAddCommGroup α]
    (A : Nat → Nat → α) (i j : Nat) : backtrackRows A i j ≠ [] := by
  intro hnil
  have hh := backtrackRows_head A i j
  rw [hnil] at hh
  simp at hh

/-- The predecessor chosen by the Exact backtracking is one DTW step back and
decreases the cell. -/
theorem predExact_facts {α : Type} [LinearOrderedAddCommGroup α]
    (A : Nat → Nat → α) (i j : Nat) (h : ¬(i = 0 ∧ j = 0)) :
    dtwStep (predExact A (i, j)) (i, j) ∧
      (predExact A (i, j)).1 + (predExact A (i, j)).2 + 1 ≤ i + j ∧
      i ≤ (predExact A (i, j)).1 + 1 ∧ j ≤ (predExact A (i, j)).2 + 1 ∧
      (predExact A (i, j)).1 ≤ i ∧ (predExact A (i, j)).2 ≤ j := by
  match i, j with
  | 0, 0 => exact absurd ⟨rfl, rfl⟩ h
  | 0, j + 1 =>
      refine ⟨Or.inr (Or.inl ⟨rfl, rfl⟩), ?_, ?_, ?_, ?_, ?_⟩ <;> simp [predExact]
  | i + 1, 0 =>
      refine ⟨Or.inl ⟨rfl, rfl⟩, ?_, ?_, ?_, ?_, ?_⟩ <;> simp [predExact]
  | i + 1, j + 1 =>
      rcases hm : argmin3 (A i (j + 1)) (A (i + 1) j) (A i j) with _ | _ | m <;>
        simp only [predExact, hm] <;>
        refine ⟨?_, by omega, by omega, by omega, by omega, by omega⟩
      · exact Or.inl ⟨rfl, rfl⟩
      · exact Or.inr (Or.inl ⟨rfl, rfl⟩)
      · exact Or.inr (Or.inr ⟨rfl, rfl⟩)

/-- Core structural facts about the backward list of the Exact backtracking:
it ends at `(0,0)`, consecutive entries are linked by the loop body, and its
length is between `max i j + 1` and `i + j + 1`. -/
theorem backtrack_core {α : Type} [LinearOrderedAddCommGroup α]
    (A : Nat → Nat → α) :
    ∀ fuel i j, i + j ≤ fuel →
      (backtrackRows A i j).getLast? = some (0, 0) ∧
      List.Chain' (fun x y => ¬(x.1 = 0 ∧ x.2 = 0) ∧ y = predExact A x)
        (backtrackRows A i j) ∧
      i < (backtrackRows A i j).length ∧ j < (backtrackRows A i j).length ∧
      (backtrackRows A i j).length ≤ i + j + 1 := by
  intro fuel
  induction fuel with
  | zero =>
      intro i j hij
      have hi : i = 0 := by omega
      have hj : j = 0 := by omega
      subst hi; subst hj
      exact ⟨rfl, by simp [backtrackRows, backtrackFirstRow], by simp [backtrackRows,
        backtrackFirstRow], by simp [backtrackRows, backtrackFirstRow],
        by simp [backtrackRows, backtrackFirstRow]⟩
  | succ fuel ih =>
      intro i j hij
      by_cases h0 : i = 0 ∧ j = 0
      · obtain ⟨hi, hj⟩ := h0
        subst hi; subst hj
        exact ⟨rfl, by simp [backtrackRows, backtrackFirstRow], by simp [backtrackRows,
          backtrackFirstRow], by simp [backtrackRows, backtrackFirstRow],
          by simp [backtrackRows, backtrackFirstRow]⟩
      · obtain ⟨hstep, hsum, hle1, hle2, hpi, hpj⟩ := predExact_facts A i j h0
        have hfuel : (predExact A (i, j)).1 + (predExact A (i, j)).2 ≤ fuel := by omega
        obtain ⟨hlast, hchain, hlen1, hlen2, hlen3⟩ :=
          ih (predExact A (i, j)).1 (predExact A (i, j)).2 hfuel
        rw [backtrackRows_cons A i j h0]
        refine ⟨?_, ?_, ?_, ?_, ?_⟩
        · cases htail : backtrackRows A (predExact A (i, j)).1 (predExact A (i, j)).2 with
          | nil => exact absurd htail (backtrackRows_ne_nil A _ _)
          | cons b t => rw [List.getLast?_cons_cons, ← htail]; exact hlast
        · rw [List.chain'_cons']
          refine ⟨?_, hchain⟩
          intro b hb
          rw [backtrackRows_head A _ _] at hb
          simp only [Option.mem_def, Option.some.injEq] at hb
          exact ⟨h0, hb ▸ rfl⟩
        · simp only [List.length_cons]; omega
        · simp only [List.length_cons]; omega
        · simp only [List.length_cons]; omega

/-! ## Cost consistency and optimality of the Exact engine -/

/-- Away from the origin, the accumulated value at a cell is the local cost
plus the accumulated value at the predecessor the backtracking chooses:
the backtracking always steps to a candidate attaining the minimum of the
accumulation recurrence. -/
theorem acm_step {α : Type} [LinearOrderedAddCommGroup α] (C : Nat → Nat → α)
    (i j : Nat) (h : ¬(i = 0 ∧ j = 0)) :
    acm C i j =
      C i j + acm C (predExact (acm C) (i, j)).1 (predExact (acm C) (i, j)).2 := by
  match i, j with
  | 0, 0 => exact absurd ⟨rfl, rfl⟩ h
  | 0, j + 1 => simp [predExact]
  | i + 1, 0 => simp [predExact]; exact add_comm _ _
  | i + 1, j + 1 =>
      have hsel := argmin3_getD (acm C i (j + 1)) (acm C (i + 1) j) (acm C i j)
      have h3 := argmin3_lt_three (acm C i (j + 1)) (acm C (i + 1) j) (acm C i j)
      rcases hm : argmin3 (acm C i (j + 1)) (acm C (i + 1) j) (acm C i j) with _ | _ | m
      · rw [hm] at hsel
        simp only [List.getD, List.get?, Option.getD] at hsel
        simp only [predExact, hm, acm_succ_succ]
        rw [← hsel]
      · rw [hm] at hsel
        simp only [List.getD, List.get?, Option.getD] at hsel
        simp only [predExact, hm, acm_succ_succ]
        rw [← hsel]
      · rw [hm] at h3 hsel
        have hm0 : m = 0 := by omega
        subst hm0
        simp only [List.getD, List.get?, Option.getD] at hsel
        simp only [predExact, hm, acm_succ_succ]
        rw [← hsel]

/-- Sum of the cost entries along the backward backtracked list equals the
accumulated value at its starting cell. -/
theorem backtrack_pathCost {α : Type} [LinearOrderedAddCommGroup α]
    (C : Nat → Nat → α) :
    ∀ fuel i j, i + j ≤ fuel →
      pathCost C (backtrackRows (acm C) i j) = acm C i j := by
  intro fuel
  induction fuel with
  | zero =>
      intro i j hij
      have hi : i = 0 := by omega
      have hj : j = 0 := by omega
      subst hi; subst hj
      simp [pathCost, backtrackRows, backtrackFirstRow]
  | succ fuel ih =>
      intro i j hij
      by_cases h0 : i = 0 ∧ j = 0
      · obtain ⟨hi, hj⟩ := h0
        subst hi; subst hj
        simp [pathCost, backtrackRows, backtrackFirstRow]
      · obtain ⟨hstep, hsum, hle1, hle2, hpi, hpj⟩ := predExact_facts (acm C) i j h0
        have hfuel : (predExact (acm C) (i, j)).1 + (predExact (acm C) (i, j)).2 ≤ fuel := by
          omega
        have hrec := ih (predExact (acm C) (i, j)).1 (predExact (acm C) (i, j)).2 hfuel
        rw [backtrackRows_cons (acm C) i j h0]
        simp only [pathCost, List.map_cons, List.sum_cons] at hrec ⊢
        rw [hrec, ← acm_step C i j h0]

theorem acm_le_up {α : Type} [LinearOrderedAddCommGroup α]
    (C : Nat → Nat → α) (a b : Nat) :
    acm C (a + 1) b ≤ C (a + 1) b + acm C a b := by
  cases b with
  | zero => rw [acm_succ_zero]; exact le_of_eq (add_comm _ _)
  | succ b => rw [acm_succ_succ]; exact add_le_add_left (min_le_left _ _) _

theorem acm_le_left {α : Type} [LinearOrderedAddCommGroup α]
    (C : Nat → Nat → α) (a b : Nat) :
    acm C a (b + 1) ≤ C a (b + 1) + acm C a b := by
  cases a with
  | zero => rw [acm_zero_succ]
  | succ a =>
      rw [acm_succ_succ]
      exact add_le_add_left ((min_le_right _ _).trans (min_le_left _ _)) _

theorem acm_le_diag {α : Type} [LinearOrderedAddCommGroup α]
    (C : Nat → Nat → α) (a b : Nat) :
    acm C (a + 1) (b + 1) ≤ C (a + 1) (b + 1) + acm C a b := by
  rw [acm_succ_succ]
  exact add_le_add_left ((min_le_right _ _).trans (min_le_right _ _)) _

/-- Dynamic-programming inequality: stepping back along any allowed DTW step
cannot beat the accumulated value. -/
theorem acm_le_of_step {α : Type} [LinearOrderedAddCommGroup α]
    (C : Nat → Nat → α) (p q : Nat × Nat) (h : dtwStep p q) :
    acm C q.1 q.2 ≤ C q.1 q.2 + acm C p.1 p.2 := by
  obtain ⟨a, b⟩ := p
  obtain ⟨c, d⟩ := q
  unfold dtwStep at h
  dsimp only at h ⊢
  rcases h with ⟨h1, h2⟩ | ⟨h1, h2⟩ | ⟨h1, h2⟩ <;> rw [h1, h2]
  · exact acm_le_up C a b
  · exact acm_le_left C a b
  · exact acm_le_diag C a b

/-- The accumulated value at the head of a backward monotone path to `(0,0)`
is a lower bound for the cost of the path. -/
theorem acm_le_pathCost_backward {α : Type} [LinearOrderedAddCommGroup α]
    (C : Nat → Nat → α) :
    ∀ (P : List (Nat × Nat)) (i j : Nat), P.head? = some (i, j) →
      P.getLast? = some (0, 0) → List.Chain' (fun x y => dtwStep y x) P →
      acm C i j ≤ pathCost C P := by
  intro P
  induction P with
  | nil => intro i j hh _ _; simp at hh
  | cons a rest ih =>
      intro i j hh hlast hchain
      simp only [List.head?_cons, Option.some.injEq] at hh
      subst hh
      cases rest with
      | nil =>
          simp only [List.getLast?_singleton, Option.some.injEq] at hlast
          have h1 : i = 0 := congrArg Prod.fst hlast
          have h2 : j = 0 := congrArg Prod.snd hlast
          subst h1; subst h2
          simp [pathCost, List.sum_reverse]
      | cons b t =>
          rw [List.chain'_cons] at hchain
          have hstep : dtwStep b (i, j) := hchain.1
          have hrec : acm C b.1 b.2 ≤ pathCost C (b :: t) := by
            refine ih b.1 b.2 rfl ?_ hchain.2
            rw [← List.getLast?_cons_cons (l := t) (a := (i, j))]
            exact hlast
          calc acm C i j ≤ C i j + acm C b.1 b.2 := acm_le_of_step C b (i, j) hstep
            _ ≤ C i j + pathCost C (b :: t) := add_le_add_left hrec _
            _ = pathCost C ((i, j) :: b :: t) := by simp [pathCost]

theorem pathCost_reverse {α : Type} [LinearOrderedAddCommGroup α]
    (C : Nat → Nat → α) (P : List (Nat × Nat)) :
    pathCost C P.reverse = pathCost C P := by
  simp [pathCost, List.sum_reverse]

/-! ## Stripe engine

`DTWStripe` (dtw.py lines 258-514) restricts the computation to a band of
width `delta` around the diagonal.  `_compute_cost_matrix` (lines 374-406)
clamps `delta` to `m`, chooses for every row `i` a window
`[range_start, range_start + delta)` of absolute columns and records
`centers[i] = range_start`; the banded cost matrix stores, at local column
`k`, the cosine distance at absolute column `centers[i] + k`.
`_compute_acm_in_place` (lines 415-439) accumulates in place with
`numpy.inf` guards (modelled by `⊤ : WithTop α`), and `_compute_best_path`
(lines 468-514) backtracks in absolute coordinates. -/

/-- Clamping of the band width (lines 385-387: `if delta > m: delta = m`). -/
def stripeDeltaClamp (delta m : Nat) : Nat :=
  if delta > m then m else delta

/-- `centers[i]` as computed by `DTWStripe._compute_cost_matrix`
(lines 390-399): `center_j = (m * i) // n`,
`range_start = max(0, center_j - delta // 2)` (natural subtraction),
then `range_start = m - delta` whenever `range_start + delta > m`. -/
def stripeCenters (n m delta : Nat) (i : Nat) : Nat :=
  let centerJ := m * i / n
  let rangeStart := centerJ - delta / 2
  if rangeStart + delta > m then m - delta else rangeStart

/-- Entry `(i, k)` of the banded cost matrix: the pairwise cost at absolute
cell `(i, centers i + k)` (line 404:
`cost_matrix[i][j - range_start] = 1 - tmp`). -/
def stripeLocalCost {α : Type} [LinearOrderedAddCommGroup α]
    (C : Nat → Nat → α) (centers : Nat → Nat) (i k : Nat) : α :=
  C i (centers i + k)

/-- Row `0` of the banded accumulated matrix: prefix sums
(lines 421-422), coerced into `WithTop α`. -/
def acmStripeFirstRow {α : Type} [LinearOrderedAddCommGroup α]
    (C : Nat → Nat → α) : Nat → WithTop α
  | 0 => (C 0 0 : α)
  | k + 1 => ((C 0 (k + 1) : α) : WithTop α) + acmStripeFirstRow C k

/-- Row `i ≥ 1` of the banded accumulated matrix, built from the accumulated
previous row `prev` with the row offset `off = centers[i] - centers[i-1]`
(lines 424-437): `cost0` is guarded by `(j+offset) < delta`, `cost1` by
`j > 0`, `cost2` by `(j+offset-1) < delta` and `(j+offset-1) >= 0`;
a failed guard contributes `numpy.inf`, that is `⊤`.  The `cost0` guard has
no lower bound: its index is non-negative whenever the centers are
monotone, which holds for every computed `stripeCenters`; the `Int.toNat`
truncation only differs from Python indexing outside that domain. -/
def acmStripeNextRow {α : Type} [LinearOrderedAddCommGroup α]
    (Crow : Nat → α) (prev : Nat → WithTop α) (off : Int) (delta : Nat) :
    Nat → WithTop α
  | 0 =>
      let c0 : WithTop α :=
        if (0 : Int) + off < (delta : Int) then prev ((0 : Int) + off).toNat else ⊤
      let c1 : WithTop α := ⊤
      let c2 : WithTop α :=
        if ((0 : Int) + off - 1 < (delta : Int)) ∧ (0 ≤ (0 : Int) + off - 1) then
          prev (((0 : Int) + off - 1).toNat) else ⊤
      ((Crow 0 : α) : WithTop α) + min c0 (min c1 c2)
  | k + 1 =>
      let c0 : WithTop α :=
        if ((k + 1 : Nat) : Int) + off < (delta : Int) then
          prev ((((k + 1 : Nat) : Int) + off).toNat) else ⊤
      let c1 : WithTop α := acmStripeNextRow Crow prev off delta k
      let c2 : WithTop α :=
        if (((k + 1 : Nat) : Int) + off - 1 < (delta : Int)) ∧
            (0 ≤ ((k + 1 : Nat) : Int) + off - 1) then
          prev ((((k + 1 : Nat) : Int) + off - 1).toNat) else ⊤
      ((Crow (k + 1) : α) : WithTop α) + min c0 (min c1 c2)

/-- All rows of the banded accumulated cost matrix
(`DTWStripe._compute_acm_in_place`); indices are `(row, local column)`.
The source array has exactly `delta` columns and the accumulation touches
only local columns `< delta` (row `0` is accumulated over
`range(1, delta)`, every later row over `range(delta)`, and each read
index is guard-bounded by `delta`), so this function agrees with the
source cell for cell on `k < delta`; its values at `k ≥ delta` correspond
to no array cell and are never used through reads that model the source
(the error-aware backtracking below reads rows only through `pyRowRead`,
which fails outside the array exactly where the source raises
`IndexError`). -/
def acmStripeRows {α : Type} [LinearOrderedAddCommGroup α]
    (C : Nat → Nat → α) (centers : Nat → Nat) (delta : Nat) :
    Nat → Nat → WithTop α
  | 0 => acmStripeFirstRow C
  | i + 1 =>
      acmStripeNextRow (fun k => C (i + 1) k) (acmStripeRows C centers delta i)
        ((centers (i + 1) : Int) - (centers i : Int)) delta

/-- `cost0` of the Stripe backtracking at absolute cell `(i, j)`, `i ≥ 1`
(lines 487-489): the accumulated value one row up, guarded by the band.
As in the accumulation, the index `r_j + offset` is non-negative whenever
the centers are monotone (true for every computed `stripeCenters`). -/
def stripeCost0 {α : Type} [LinearOrderedAddCommGroup α]
    (A : Nat → Nat → WithTop α) (centers : Nat → Nat) (delta i j : Nat) :
    WithTop α :=
  let off : Int := (centers i : Int) - (centers (i - 1) : Int)
  let rj : Int := (j : Int) - (centers i : Int)
  if rj + off < (delta : Int) then A (i - 1) (rj + off).toNat else ⊤

/-- `cost1` of the Stripe backtracking at absolute cell `(i, j)`
(lines 490-492): the accumulated value one column left, guarded by
`r_j > 0`.  The source read `acc_matrix[i][r_j - 1]` has no upper guard:
for `r_j - 1 ≥ delta` — reachable only after the backtracking has escaped
the band, e.g. `n = 3`, `m = 30`, `delta = 3` at cell `(1, 21)` — it
raises `IndexError` and the path computation fails.  This total function
describes the value compared by the loop only while the read is in range;
the error itself is modelled by the error-aware backtracking below
(`pyRowRead` / `backtrackStripeRowsE`), which returns `none` on that
input. -/
def stripeCost1 {α : Type} [LinearOrderedAddCommGroup α]
    (A : Nat → Nat → WithTop α) (centers : Nat → Nat) (delta i j : Nat) :
    WithTop α :=
  let rj : Int := (j : Int) - (centers i : Int)
  if 0 < rj then A i (rj - 1).toNat else ⊤

/-- `cost2` of the Stripe backtracking at absolute cell `(i, j)`, `i ≥ 1`
(lines 493-495): the diagonal accumulated value, guarded by `r_j > 0` and
the band bounds. -/
def stripeCost2 {α : Type} [LinearOrderedAddCommGroup α]
    (A : Nat → Nat → WithTop α) (centers : Nat → Nat) (delta i j : Nat) :
    WithTop α :=
  let off : Int := (centers i : Int) - (centers (i - 1) : Int)
  let rj : Int := (j : Int) - (centers i : Int)
  if 0 < rj ∧ (rj + off - 1 < (delta : Int)) ∧ (0 ≤ rj + off - 1) then
    A (i - 1) (rj + off - 1).toNat else ⊤

/-- Backtracking of the Stripe engine from an absolute cell of row `i+1`,
given the backtracking function for row `i` (lines 477-510). -/
def backtrackStripeNextRow {α : Type} [LinearOrderedAddCommGroup α]
    (A : Nat → Nat → WithTop α) (centers : Nat → Nat) (delta : Nat) (i : Nat)
    (prevRow : Nat → List (Nat × Nat)) : Nat → List (Nat × Nat)
  | 0 => (i + 1, 0) :: prevRow 0
  | j + 1 => (i + 1, j + 1) ::
      (match argmin3 (stripeCost0 A centers delta (i + 1) (j + 1))
          (stripeCost1 A centers delta (i + 1) (j + 1))
          (stripeCost2 A centers delta (i + 1) (j + 1)) with
        | 0 => prevRow (j + 1)
        | 1 => backtrackStripeNextRow A centers delta i prevRow j
        | _ => prevRow j)

/-- Backward list (end to start) of the Stripe backtracking from absolute
cell `(i, j)`; row `0` only steps left, exactly as in the Exact engine
(lines 478-480). -/
def backtrackStripeRows {α : Type} [LinearOrderedAddCommGroup α]
    (A : Nat → Nat → WithTop α) (centers : Nat → Nat) (delta : Nat) :
    Nat → Nat → List (Nat × Nat)
  | 0 => backtrackFirstRow
  | i + 1 => backtrackStripeNextRow A centers delta i (backtrackStripeRows A centers delta i)

/-- `DTWStripe._compute_best_path`: starts at `i = n - 1`,
`j = delta - 1 + centers[i]` (lines 473-475) and reverses the collected
list on return. -/
def computeBestPathStripe {α : Type} [LinearOrderedAddCommGroup α]
    (A : Nat → Nat → WithTop α) (centers : Nat → Nat) (delta n : Nat) :
    List (Nat × Nat) :=
  (backtrackStripeRows A centers delta (n - 1) (delta - 1 + centers (n - 1))).reverse

/-- The banded accumulated cost matrix of the Stripe engine run on the
pairwise cost function `C` with configured band width `delta0`. -/
def stripeAcm {α : Type} [LinearOrderedAddCommGroup α]
    (C : Nat → Nat → α) (n m delta0 : Nat) : Nat → Nat → WithTop α :=
  acmStripeRows (stripeLocalCost C (stripeCenters n m (stripeDeltaClamp delta0 m)))
    (stripeCenters n m (stripeDeltaClamp delta0 m)) (stripeDeltaClamp delta0 m)

/-- The (forward, absolute-index) path returned by the Stripe engine run on
the pairwise cost function `C` with configured band width `delta0`. -/
def stripeBestPath {α : Type} [LinearOrderedAddCommGroup α]
    (C : Nat → Nat → α) (n m delta0 : Nat) : List (Nat × Nat) :=
  computeBestPathStripe (stripeAcm C n m delta0)
    (stripeCenters n m (stripeDeltaClamp delta0 m)) (stripeDeltaClamp delta0 m) n

/-- The predecessor cell the Stripe backtracking loop chooses from an
absolute cell (one iteration of the loop at lines 477-510). -/
def predStripe {α : Type} [LinearOrderedAddCommGroup α]
    (A : Nat → Nat → WithTop α) (centers : Nat → Nat) (delta : Nat) :
    Nat × Nat → Nat × Nat
  | (0, j) => (0, j - 1)
  | (i + 1, 0) => (i, 0)
  | (i + 1, j + 1) =>
      match argmin3 (stripeCost0 A centers delta (i + 1) (j + 1))
          (stripeCost1 A centers delta (i + 1) (j + 1))
          (stripeCost2 A centers delta (i + 1) (j + 1)) with
      | 0 => (i, j + 1)
      | 1 => (i + 1, j)
      | _ => (i, j)

/-! ## Error-aware Stripe backtracking

The rows of the source's banded accumulated matrix have exactly `delta`
entries.  `acmStripeRows` above is a total function; the accumulation only
ever reads and writes local columns inside `[0, delta)` (its guards bound
each read index above by `delta`, and the monotonicity of every computed
`stripeCenters` keeps the indices non-negative), so the values it assigns
to columns `≥ delta` are never consulted by the source.  The backtracking
loop, however, can escape the band when a center jump reaches `delta`
(see the C6 counterexample), and at an out-of-band cell its read
`acc_matrix[i][r_j - 1]` (line 491) uses an index `≥ delta`: the source
raises `IndexError`, `_compute_path_pure_python` returns no path, and
`compute_path` fails without storing anything.  The functions below model
this error path faithfully: every row access goes through Python list
indexing on a row of length `delta` (in-range and once-wrapped negative
indices succeed, anything else is an `IndexError`, modelled by `none`),
and a failed read aborts the whole backtracking. -/

/-- Python read `row[idx]` on row `i` of the banded accumulated matrix,
whose rows have length `delta`: indices in `[0, delta)` read directly,
negative indices in `[-delta, 0)` wrap once, everything else raises
`IndexError` (`none`). -/
def pyRowRead {α : Type} [LinearOrderedAddCommGroup α]
    (A : Nat → Nat → WithTop α) (delta i : Nat) (idx : Int) :
    Option (WithTop α) :=
  if 0 ≤ idx ∧ idx < (delta : Int) then some (A i idx.toNat)
  else if -(delta : Int) ≤ idx ∧ idx < 0 then
    some (A i ((delta : Int) + idx).toNat)
  else none

/-- Error-aware Stripe backtracking from an absolute cell of row `i+1`
(lines 477-510): the three candidate costs are read through `pyRowRead`
under exactly the source's guards (the same guards as `stripeCost0`,
`stripeCost1`, `stripeCost2`); a failed read aborts the computation. -/
def backtrackStripeNextRowE {α : Type} [LinearOrderedAddCommGroup α]
    (A : Nat → Nat → WithTop α) (centers : Nat → Nat) (delta : Nat) (i : Nat)
    (prevRow : Nat → Option (List (Nat × Nat))) :
    Nat → Option (List (Nat × Nat))
  | 0 => (prevRow 0).map fun l => (i + 1, 0) :: l
  | j + 1 =>
      let off : Int := (centers (i + 1) : Int) - (centers i : Int)
      let rj : Int := ((j + 1 : Nat) : Int) - (centers (i + 1) : Int)
      match (if rj + off < (delta : Int) then pyRowRead A delta i (rj + off)
          else some ⊤),
        (if 0 < rj then pyRowRead A delta (i + 1) (rj - 1) else some ⊤),
        (if 0 < rj ∧ (rj + off - 1 < (delta : Int)) ∧ (0 ≤ rj + off - 1) then
          pyRowRead A delta i (rj + off - 1) else some ⊤) with
      | some c0, some c1, some c2 =>
          (match argmin3 c0 c1 c2 with
            | 0 => prevRow (j + 1)
            | 1 => backtrackStripeNextRowE A centers delta i prevRow j
            | _ => prevRow j).map fun l => (i + 1, j + 1) :: l
      | _, _, _ => none

/-- Error-aware backward list of the Stripe backtracking from absolute cell
`(i, j)`; row `0` only steps left and performs no reads, so it cannot
fail. -/
def backtrackStripeRowsE {α : Type} [LinearOrderedAddCommGroup α]
    (A : Nat → Nat → WithTop α) (centers : Nat → Nat) (delta : Nat) :
    Nat → Nat → Option (List (Nat × Nat))
  | 0 => fun j => some (backtrackFirstRow j)
  | i + 1 => backtrackStripeNextRowE A centers delta i
      (backtrackStripeRowsE A centers delta i)

/-- Error-aware `DTWStripe._compute_best_path`: starts at `i = n - 1`,
`j = delta - 1 + centers[i]` (lines 473-475); `none` when the walk raises
`IndexError`, otherwise the reversed collected list. -/
def computeBestPathStripeE {α : Type} [LinearOrderedAddCommGroup α]
    (A : Nat → Nat → WithTop α) (centers : Nat → Nat) (delta n : Nat) :
    Option (List (Nat × Nat)) :=
  (backtrackStripeRowsE A centers delta (n - 1)
    (delta - 1 + centers (n - 1))).map List.reverse

/-- The result of the Stripe engine run on the pairwise cost function `C`
with configured band width `delta0`, error path included: `none` exactly
when the source's backtracking raises `IndexError` (and `compute_path`
then stores no result). -/
def stripeBestPathE {α : Type} [LinearOrderedAddCommGroup α]
    (C : Nat → Nat → α) (n m delta0 : Nat) : Option (List (Nat × Nat)) :=
  computeBestPathStripeE (stripeAcm C n m delta0)
    (stripeCenters n m (stripeDeltaClamp delta0 m)) (stripeDeltaClamp delta0 m) n

theorem backtrackStripeRows_cons {α : Type} [LinearOrderedAddCommGroup α]
    (A : Nat → Nat → WithTop α) (centers : Nat → Nat) (delta : Nat)
    (i j : Nat) (h : ¬(i = 0 ∧ j = 0)) :
    backtrackStripeRows A centers delta i j =
      (i, j) :: backtrackStripeRows A centers delta
        (predStripe A centers delta (i, j)).1 (predStripe A centers delta (i, j)).2 := by
  match i, j with
  | 0, 0 => exact absurd ⟨rfl, rfl⟩ h
  | 0, j + 1 => rfl
  | i + 1, 0 => rfl
  | i + 1, j + 1 =>
      rcases hm : argmin3 (stripeCost0 A centers delta (i + 1) (j + 1))
          (stripeCost1 A centers delta (i + 1) (j + 1))
          (stripeCost2 A centers delta (i + 1) (j + 1)) with _ | _ | m <;>
        simp [backtrackStripeRows, backtrackStripeNextRow, predStripe, hm]

theorem backtrackStripeRows_head {α : Type} [LinearOrderedAddCommGroup α]
    (A : Nat → Nat → WithTop α) (centers : Nat → Nat) (delta : Nat) (i j : Nat) :
    (backtrackStripeRows A centers delta i j).head? = some (i, j) := by
  match i, j with
  | 0, 0 => rfl
  | 0, j + 1 => rfl
  | i + 1, 0 => rfl
  | i + 1, j + 1 => rfl

theorem backtrackStripeRows_ne_nil {α : Type} [LinearOrderedAddCommGroup α]
    (A : Nat → Nat → WithTop α) (centers : Nat → Nat) (delta : Nat) (i j : Nat) :
    backtrackStripeRows A centers delta i j ≠ [] := by
  intro hnil
  have hh := backtrackStripeRows_head A centers delta i j
  rw [hnil] at hh
  simp at hh

/-- The predecessor chosen by the Stripe backtracking is one DTW step back
and decreases the cell. -/
theorem predStripe_facts {α : Type} [LinearOrderedAddCommGroup α]
    (A : Nat → Nat → WithTop α) (centers : Nat → Nat) (delta : Nat)
    (i j : Nat) (h : ¬(i = 0 ∧ j = 0)) :
    dtwStep (predStripe A centers delta (i, j)) (i, j) ∧
      (predStripe A centers delta (i, j)).1 + (predStripe A centers delta (i, j)).2 + 1 ≤
        i + j ∧
      i ≤ (predStripe A centers delta (i, j)).1 + 1 ∧
      j ≤ (predStripe A centers delta (i, j)).2 + 1 ∧
      (predStripe A centers delta (i, j)).1 ≤ i ∧
      (predStripe A centers delta (i, j)).2 ≤ j := by
  match i, j with
  | 0, 0 => exact absurd ⟨rfl, rfl⟩ h
  | 0, j + 1 =>
      refine ⟨Or.inr (Or.inl ⟨rfl, rfl⟩), ?_, ?_, ?_, ?_, ?_⟩ <;> simp [predStripe]
  | i + 1, 0 =>
      refine ⟨Or.inl ⟨rfl, rfl⟩, ?_, ?_, ?_, ?_, ?_⟩ <;> simp [predStripe]
  | i + 1, j + 1 =>
      rcases hm : argmin3 (stripeCost0 A centers delta (i + 1) (j + 1))
          (stripeCost1 A centers delta (i + 1) (j + 1))
          (stripeCost2 A centers delta (i + 1) (j + 1)) with _ | _ | m <;>
        simp only [predStripe, hm] <;>
        refine ⟨?_, by omega, by omega, by omega, by omega, by omega⟩
      · exact Or.inl ⟨rfl, rfl⟩
      · exact Or.inr (Or.inl ⟨rfl, rfl⟩)
      · exact Or.inr (Or.inr ⟨rfl, rfl⟩)

/-- Core structural facts about the backward list of the Stripe
backtracking: it ends at `(0,0)`, consecutive entries are linked by the loop
body, and its length is between `max i j + 1` and `i + j + 1`. -/
theorem backtrackStripe_core {α : Type} [LinearOrderedAddCommGroup α]
    (A : Nat → Nat → WithTop α) (centers : Nat → Nat) (delta : Nat) :
    ∀ fuel i j, i + j ≤ fuel →
      (backtrackStripeRows A centers delta i j).getLast? = some (0, 0) ∧
      List.Chain' (fun x y => ¬(x.1 = 0 ∧ x.2 = 0) ∧ y = predStripe A centers delta x)
        (backtrackStripeRows A centers delta i j) ∧
      i < (backtrackStripeRows A centers delta i j).length ∧
      j < (backtrackStripeRows A centers delta i j).length ∧
      (backtrackStripeRows A centers delta i j).length ≤ i + j + 1 := by
  intro fuel
  induction fuel with
  | zero =>
      intro i j hij
      have hi : i = 0 := by omega
      have hj : j = 0 := by omega
      subst hi; subst hj
      exact ⟨rfl, by simp [backtrackStripeRows, backtrackFirstRow],
        by simp [backtrackStripeRows, backtrackFirstRow],
        by simp [backtrackStripeRows, backtrackFirstRow],
        by simp [backtrackStripeRows, backtrackFirstRow]⟩
  | succ fuel ih =>
      intro i j hij
      by_cases h0 : i = 0 ∧ j = 0
      · obtain ⟨hi, hj⟩ := h0
        subst hi; subst hj
        exact ⟨rfl, by simp [backtrackStripeRows, backtrackFirstRow],
          by simp [backtrackStripeRows, backtrackFirstRow],
          by simp [backtrackStripeRows, backtrackFirstRow],
          by simp [backtrackStripeRows, backtrackFirstRow]⟩
      · obtain ⟨hstep, hsum, hle1, hle2, hpi, hpj⟩ := predStripe_facts A centers delta i j h0
        have hfuel : (predStripe A centers delta (i, j)).1 +
            (predStripe A centers delta (i, j)).2 ≤ fuel := by omega
        obtain ⟨hlast, hchain, hlen1, hlen2, hlen3⟩ :=
          ih (predStripe A centers delta (i, j)).1 (predStripe A centers delta (i, j)).2 hfuel
        rw [backtrackStripeRows_cons A centers delta i j h0]
        refine ⟨?_, ?_, ?_, ?_, ?_⟩
        · cases htail : backtrackStripeRows A centers delta
              (predStripe A centers delta (i, j)).1 (predStripe A centers delta (i, j)).2 with
          | nil => exact absurd htail (backtrackStripeRows_ne_nil A centers delta _ _)
          | cons b t => rw [List.getLast?_cons_cons, ← htail]; exact hlast
        · rw [List.chain'_cons']
          refine ⟨?_, hchain⟩
          intro b hb
          rw [backtrackStripeRows_head A centers delta _ _] at hb
          simp only [Option.mem_def, Option.some.injEq] at hb
          exact ⟨h0, hb ▸ rfl⟩
        · simp only [List.length_cons]; omega
        · simp only [List.length_cons]; omega
        · simp only [List.length_cons]; omega

/-! ## Endpoint, chain and length facts for the two engines -/

theorem stripeDeltaClamp_pos (delta0 m : Nat) (hd : 1 ≤ delta0) (hm : 1 ≤ m) :
    1 ≤ stripeDeltaClamp delta0 m := by
  unfold stripeDeltaClamp; split_ifs <;> omega

theorem stripeDeltaClamp_le (delta0 m : Nat) : stripeDeltaClamp delta0 m ≤ m := by
  unfold stripeDeltaClamp; split_ifs <;> omega

/-- Endpoints, step chain and length bounds of the Exact best path. -/
theorem computeBestPath_facts {α : Type} [LinearOrderedAddCommGroup α]
    (A : Nat → Nat → α) (n m : Nat) (hn : 1 ≤ n) (hm : 1 ≤ m) :
    (computeBestPath A n m).head? = some (0, 0) ∧
    (computeBestPath A n m).getLast? = some (n - 1, m - 1) ∧
    (computeBestPath A n m).Chain' dtwStep ∧
    max n m ≤ (computeBestPath A n m).length ∧
    (computeBestPath A n m).length ≤ n + m - 1 := by
  obtain ⟨hlast, hchain, hl1, hl2, hl3⟩ :=
    backtrack_core A ((n - 1) + (m - 1)) (n - 1) (m - 1) le_rfl
  refine ⟨?_, ?_, ?_, ?_, ?_⟩
  · rw [computeBestPath, List.head?_reverse]; exact hlast
  · rw [computeBestPath, List.getLast?_reverse]; exact backtrackRows_head A _ _
  · rw [computeBestPath, List.chain'_reverse]
    refine hchain.imp ?_
    intro x y hxy
    obtain ⟨hx0, hyx⟩ := hxy
    have hf := (predExact_facts A x.1 x.2 hx0).1
    rw [hyx]
    exact hf
  · rw [computeBestPath, List.length_reverse]
    exact max_le (by omega) (by omega)
  · rw [computeBestPath, List.length_reverse]
    omega

/-- Appending a head in front of a list keeps its last element. -/
theorem getLast_cons_of_head {p q : Nat × Nat} {L : List (Nat × Nat)}
    (hh : L.head? = some q) (hl : L.getLast? = some (0, 0)) :
    (p :: L).getLast? = some (0, 0) := by
  cases L with
  | nil => simp at hh
  | cons b t => rw [List.getLast?_cons_cons]; exact hl

/-- Extending a chained list by a head related to its first element. -/
theorem chain_cons_of_head {R : Nat × Nat → Nat × Nat → Prop} {p q : Nat × Nat}
    {L : List (Nat × Nat)} (hh : L.head? = some q) (hc : List.Chain' R L)
    (hR : R p q) : List.Chain' R (p :: L) := by
  rw [List.chain'_cons']
  refine ⟨?_, hc⟩
  intro b hb
  rw [hh] at hb
  simp only [Option.mem_def, Option.some.injEq] at hb
  subst hb
  exact hR

/-- Endpoints, backward chain and length of the row-`0` backtracking. -/
theorem backtrackFirstRow_facts :
    ∀ j : Nat, (backtrackFirstRow j).head? = some (0, j) ∧
      (backtrackFirstRow j).getLast? = some (0, 0) ∧
      List.Chain' (fun x y => dtwStep y x) (backtrackFirstRow j) ∧
      (backtrackFirstRow j).length = j + 1 := by
  intro j
  induction j with
  | zero => exact ⟨rfl, rfl, List.chain'_singleton _, rfl⟩
  | succ j ih =>
      obtain ⟨h1, h2, h3, h4⟩ := ih
      exact ⟨rfl, getLast_cons_of_head h1 h2,
        chain_cons_of_head h1 h3 (Or.inr (Or.inl ⟨rfl, rfl⟩)),
        by show (backtrackFirstRow j).length + 1 = j + 1 + 1; omega⟩

/-- Structural facts about every successful run of the error-aware Stripe
backtracking: the backward list starts at `(i, j)`, ends at `(0, 0)`,
consecutive entries are linked by a backward DTW step, and its length is
between `max i j + 1` and `i + j + 1`.  A run that raises `IndexError`
returns `none` and is not constrained here. -/
theorem backtrackStripeRowsE_facts {α : Type} [LinearOrderedAddCommGroup α]
    (A : Nat → Nat → WithTop α) (centers : Nat → Nat) (delta : Nat) :
    ∀ fuel i j L, i + j ≤ fuel →
      backtrackStripeRowsE A centers delta i j = some L →
      L.head? = some (i, j) ∧ L.getLast? = some (0, 0) ∧
      List.Chain' (fun x y => dtwStep y x) L ∧
      i < L.length ∧ j < L.length ∧ L.length ≤ i + j + 1 := by
  intro fuel
  induction fuel with
  | zero =>
      intro i j L hij hL
      have hi : i = 0 := by omega
      have hj : j = 0 := by omega
      subst hi; subst hj
      have hL2 : some (backtrackFirstRow 0) = some L := hL
      rw [Option.some_inj] at hL2
      subst hL2
      obtain ⟨h1, h2, h3, h4⟩ := backtrackFirstRow_facts 0
      exact ⟨h1, h2, h3, by omega, by omega, by omega⟩
  | succ fuel ih =>
      intro i j L hij hL
      match i, j with
      | 0, j =>
          have hL2 : some (backtrackFirstRow j) = some L := hL
          rw [Option.some_inj] at hL2
          subst hL2
          obtain ⟨h1, h2, h3, h4⟩ := backtrackFirstRow_facts j
          exact ⟨h1, h2, h3, by omega, by omega, by omega⟩
      | i + 1, 0 =>
          have hL2 : (backtrackStripeRowsE A centers delta i 0).map
              (fun l => (i + 1, 0) :: l) = some L := hL
          rw [Option.map_eq_some'] at hL2
          obtain ⟨L', hL', rfl⟩ := hL2
          obtain ⟨h1, h2, h3, h4, h5, h6⟩ := ih i 0 L' (by omega) hL'
          refine ⟨rfl, getLast_cons_of_head h1 h2,
            chain_cons_of_head h1 h3 (Or.inl ⟨rfl, rfl⟩), ?_, ?_, ?_⟩ <;>
            simp only [List.length_cons] <;> omega
      | i + 1, j + 1 =>
          simp only [backtrackStripeRowsE, backtrackStripeNextRowE] at hL
          split at hL
          · split at hL
            · rw [Option.map_eq_some'] at hL
              obtain ⟨L', hL', rfl⟩ := hL
              obtain ⟨h1, h2, h3, h4, h5, h6⟩ := ih i (j + 1) L' (by omega) hL'
              refine ⟨rfl, getLast_cons_of_head h1 h2,
                chain_cons_of_head h1 h3 (Or.inl ⟨rfl, rfl⟩), ?_, ?_, ?_⟩ <;>
                simp only [List.length_cons] <;> omega
            · rw [Option.map_eq_some'] at hL
              obtain ⟨L', hL', rfl⟩ := hL
              have hL'' : backtrackStripeRowsE A centers delta (i + 1) j = some L' := hL'
              obtain ⟨h1, h2, h3, h4, h5, h6⟩ := ih (i + 1) j L' (by omega) hL''
              refine ⟨rfl, getLast_cons_of_head h1 h2,
                chain_cons_of_head h1 h3 (Or.inr (Or.inl ⟨rfl, rfl⟩)), ?_, ?_, ?_⟩ <;>
                simp only [List.length_cons] <;> omega
            · rw [Option.map_eq_some'] at hL
              obtain ⟨L', hL', rfl⟩ := hL
              obtain ⟨h1, h2, h3, h4, h5, h6⟩ := ih i j L' (by omega) hL'
              refine ⟨rfl, getLast_cons_of_head h1 h2,
                chain_cons_of_head h1 h3 (Or.inr (Or.inr ⟨rfl, rfl⟩)), ?_, ?_, ?_⟩ <;>
                simp only [List.length_cons] <;> omega
          all_goals exact Option.noConfusion hL

/-- Endpoints, step chain and length bounds of every successful Stripe
best-path computation, over an arbitrary banded accumulated matrix and
centers; a failing computation (`none`, the source's `IndexError`) returns
no path and is not constrained. -/
theorem computeBestPathStripeE_facts {α : Type} [LinearOrderedAddCommGroup α]
    (A : Nat → Nat → WithTop α) (centers : Nat → Nat) (delta n : Nat)
    (hn : 1 ≤ n) (hdelta : 1 ≤ delta) :
    ∀ P, computeBestPathStripeE A centers delta n = some P →
      P.head? = some (0, 0) ∧
      P.getLast? = some (n - 1, delta - 1 + centers (n - 1)) ∧
      P.Chain' dtwStep ∧
      max n (centers (n - 1) + delta) ≤ P.length ∧
      P.length ≤ n + centers (n - 1) + delta - 1 := by
  intro P hP
  have hP2 : (backtrackStripeRowsE A centers delta (n - 1)
      (delta - 1 + centers (n - 1))).map List.reverse = some P := hP
  rw [Option.map_eq_some'] at hP2
  obtain ⟨L, hL, rfl⟩ := hP2
  obtain ⟨h1, h2, h3, h4, h5, h6⟩ :=
    backtrackStripeRowsE_facts A centers delta
      ((n - 1) + (delta - 1 + centers (n - 1))) (n - 1)
      (delta - 1 + centers (n - 1)) L le_rfl hL
  refine ⟨?_, ?_, ?_, ?_, ?_⟩
  · rw [List.head?_reverse]; exact h2
  · rw [List.getLast?_reverse]; exact h1
  · rw [List.chain'_reverse]; exact h3
  · rw [List.length_reverse]; exact max_le (by omega) (by omega)
  · rw [List.length_reverse]; omega

/-! ## From the backward chain to consecutive entries of the returned path -/

/-- If the backward list is chained by the loop body `f`, then in the
reversed (returned) path every entry is `f` of its successor. -/
theorem get_of_backChain {f : Nat × Nat → Nat × Nat} {L : List (Nat × Nat)}
    (h : List.Chain' (fun x y => ¬(x.1 = 0 ∧ x.2 = 0) ∧ y = f x) L)
    (t : Nat) (ht : t + 1 < L.reverse.length) :
    L.reverse.get ⟨t, Nat.lt_of_succ_lt ht⟩ = f (L.reverse.get ⟨t + 1, ht⟩) := by
  have hc : L.reverse.Chain' (fun x y => ¬(y.1 = 0 ∧ y.2 = 0) ∧ x = f y) := by
    rw [List.chain'_reverse]
    exact h
  have := (List.chain'_iff_get.mp hc) t (by omega)
  exact this.2

/-- At an interior cell, the Exact loop body is the first argmin over the
three candidate accumulated costs in the fixed order `[up, left, diag]`. -/
theorem predExact_interior {α : Type} [LinearOrderedAddCommGroup α]
    (A : Nat → Nat → α) (p : Nat × Nat) (h1 : 0 < p.1) (h2 : 0 < p.2) :
    predExact A p =
      [(p.1 - 1, p.2), (p.1, p.2 - 1), (p.1 - 1, p.2 - 1)].getD
        (firstMinIdx [A (p.1 - 1) p.2, A p.1 (p.2 - 1), A (p.1 - 1) (p.2 - 1)])
        (0, 0) := by
  obtain ⟨i, j⟩ := p
  match i, j with
  | i + 1, j + 1 =>
      rw [← argmin3_eq_firstMinIdx]
      have h3 := argmin3_lt_three (A i (j + 1)) (A (i + 1) j) (A i j)
      rcases hm : argmin3 (A i (j + 1)) (A (i + 1) j) (A i j) with _ | _ | m
      · simp [predExact, hm, List.getD]
      · simp [predExact, hm, List.getD]
      · rw [hm] at h3
        have hm0 : m = 0 := by omega
        subst hm0
        simp [predExact, hm, List.getD]

/-- At an interior cell, the Stripe loop body is the first argmin over the
three guarded candidate costs in the fixed order `[up, left, diag]`. -/
theorem predStripe_interior {α : Type} [LinearOrderedAddCommGroup α]
    (A : Nat → Nat → WithTop α) (centers : Nat → Nat) (delta : Nat)
    (p : Nat × Nat) (h1 : 0 < p.1) (h2 : 0 < p.2) :
    predStripe A centers delta p =
      [(p.1 - 1, p.2), (p.1, p.2 - 1), (p.1 - 1, p.2 - 1)].getD
        (firstMinIdx [stripeCost0 A centers delta p.1 p.2,
          stripeCost1 A centers delta p.1 p.2,
          stripeCost2 A centers delta p.1 p.2]) (0, 0) := by
  obtain ⟨i, j⟩ := p
  match i, j with
  | i + 1, j + 1 =>
      rw [← argmin3_eq_firstMinIdx]
      have h3 := argmin3_lt_three (stripeCost0 A centers delta (i + 1) (j + 1))
        (stripeCost1 A centers delta (i + 1) (j + 1))
        (stripeCost2 A centers delta (i + 1) (j + 1))
      rcases hm : argmin3 (stripeCost0 A centers delta (i + 1) (j + 1))
          (stripeCost1 A centers delta (i + 1) (j + 1))
          (stripeCost2 A centers delta (i + 1) (j + 1)) with _ | _ | m
      · simp [predStripe, hm, List.getD]
      · simp [predStripe, hm, List.getD]
      · rw [hm] at h3
        have hm0 : m = 0 := by omega
        subst hm0
        simp [predStripe, hm, List.getD]

/-! ## Claim C1 -/

/-- Claim C1: for every cost matrix over an `n × m` grid (`n, m ≥ 1`, in
particular every cost matrix produced from a pair of valid MFCC matrices),
the Exact engine's terminal accumulated value `A[n-1, m-1]` equals the sum
of the cost-matrix entries over the path returned by
`DTWExact._compute_best_path`, and is at most the total cost of every
monotone path from `(0,0)` to `(n-1, m-1)` with steps in
`{(1,0), (0,1), (1,1)}`. -/
theorem c1_exact_cost_consistency_and_optimality {α : Type}
    [LinearOrderedAddCommGroup α] (C : Nat → Nat → α) (n m : Nat)
    (hn : 1 ≤ n) (hm : 1 ≤ m) :
    pathCost C (computeBestPath (acm C) n m) = acm C (n - 1) (m - 1) ∧
    ∀ P : List (Nat × Nat), ValidPath n m P →
      acm C (n - 1) (m - 1) ≤ pathCost C P := by
  constructor
  · rw [computeBestPath, pathCost_reverse]
    exact backtrack_pathCost C ((n - 1) + (m - 1)) (n - 1) (m - 1) le_rfl
  · intro P hP
    obtain ⟨hhead, hlast, hchain⟩ := hP
    have h1 : P.reverse.head? = some (n - 1, m - 1) := by
      rw [List.head?_reverse]; exact hlast
    have h2 : P.reverse.getLast? = some (0, 0) := by
      rw [List.getLast?_reverse]; exact hhead
    have h3 : List.Chain' (fun x y => dtwStep y x) P.reverse := by
      rw [List.chain'_reverse]; exact hchain
    have := acm_le_pathCost_backward C P.reverse (n - 1) (m - 1) h1 h2 h3
    rwa [pathCost_reverse] at this

theorem c1_witness :
    pathCost (fun i j => if i = j then (0 : ℤ) else 1)
        (computeBestPath (acm fun i j => if i = j then (0 : ℤ) else 1) 2 2) =
      acm (fun i j => if i = j then (0 : ℤ) else 1) (2 - 1) (2 - 1) ∧
    ∀ P : List (Nat × Nat), ValidPath 2 2 P →
      acm (fun i j => if i = j then (0 : ℤ) else 1) (2 - 1) (2 - 1) ≤
        pathCost (fun i j => if i = j then (0 : ℤ) else 1) P :=
  c1_exact_cost_consistency_and_optimality
    (fun i j => if i = j then (0 : ℤ) else 1) 2 2 (by decide) (by decide)

/-! ## Claim C2 -/

/-- Claim C2 counterexample: with the constant-zero cost matrix (realised,
for example, by two MFCC matrices all of whose reduced columns equal `[1]`)
and `n = 2`, `m = 10`, configured `delta = 2` (so the Stripe engine runs
and `delta` is not clamped), the Stripe backtracking succeeds but its path
ends at `(1, 5)`, not at `(n-1, m-1) = (1, 9)`, and its length `7` is
smaller than `max n m = 10`.  Moreover for `n = 3`, `m = 30`, `delta = 3`
(centers `[0, 9, 19]`) the backtracking escapes the band and raises
`IndexError` at `acc_matrix[1][11]` (the rows have only `delta = 3`
entries), so the engine returns no path at all. -/
theorem c2_counterexample :
    stripeBestPathE (fun _ _ => (0 : ℤ)) 2 10 2 =
      some [(0, 0), (0, 1), (0, 2), (0, 3), (0, 4), (0, 5), (1, 5)] ∧
    ¬ (([(0, 0), (0, 1), (0, 2), (0, 3), (0, 4), (0, 5), (1, 5)] :
          List (Nat × Nat)).getLast? = some (2 - 1, 10 - 1) ∧
        max 2 10 ≤ ([(0, 0), (0, 1), (0, 2), (0, 3), (0, 4), (0, 5), (1, 5)] :
          List (Nat × Nat)).length) ∧
    stripeBestPathE (fun _ _ => (0 : ℤ)) 3 30 3 = none := by
  decide

/-- Claim C2 (amended): the Exact path starts at `(0,0)`, ends at
`(n-1, m-1)`, has steps in `{(1,0),(0,1),(1,1)}` and length `k` with
`max n m ≤ k ≤ n + m - 1`.  The Stripe backtracking can instead raise
`IndexError` after escaping the band, and then returns no path (see the
counterexample); whenever it does return a path, that path (in absolute
indices) starts at `(0,0)`, has the same step shape, ends at
`(n-1, centers[n-1] + delta - 1)` — which equals `(n-1, m-1)` exactly when
`centers[n-1] = m - delta` — and its length `k` satisfies
`max n (centers[n-1] + delta) ≤ k ≤ n + centers[n-1] + delta - 1`. -/
theorem c2_amended {α : Type} [LinearOrderedAddCommGroup α]
    (C : Nat → Nat → α) (n m delta0 : Nat)
    (hn : 1 ≤ n) (hm : 1 ≤ m) (hd : 1 ≤ delta0) :
    (ValidPath n m (computeBestPath (acm C) n m) ∧
      max n m ≤ (computeBestPath (acm C) n m).length ∧
      (computeBestPath (acm C) n m).length ≤ n + m - 1) ∧
    (∀ P, stripeBestPathE C n m delta0 = some P →
      P.head? = some (0, 0) ∧
      P.getLast? = some (n - 1, stripeDeltaClamp delta0 m - 1 +
        stripeCenters n m (stripeDeltaClamp delta0 m) (n - 1)) ∧
      P.Chain' dtwStep ∧
      max n (stripeCenters n m (stripeDeltaClamp delta0 m) (n - 1) +
        stripeDeltaClamp delta0 m) ≤ P.length ∧
      P.length ≤ n + stripeCenters n m (stripeDeltaClamp delta0 m) (n - 1) +
        stripeDeltaClamp delta0 m - 1) := by
  obtain ⟨he1, he2, he3, he4, he5⟩ := computeBestPath_facts (acm C) n m hn hm
  refine ⟨⟨⟨he1, he2, he3⟩, he4, he5⟩, ?_⟩
  intro P hP
  exact computeBestPathStripeE_facts (stripeAcm C n m delta0)
    (stripeCenters n m (stripeDeltaClamp delta0 m)) (stripeDeltaClamp delta0 m) n
    hn (stripeDeltaClamp_pos delta0 m hd hm) P hP

theorem c2_witness :
    (1 ≤ 2 ∧ 1 ≤ 1 ∧
      stripeBestPathE (fun _ _ => (0 : ℤ)) 2 2 1 = some [(0, 0), (0, 1), (1, 1)]) ∧
    ((ValidPath 2 2 (computeBestPath (acm fun _ _ => (0 : ℤ)) 2 2) ∧
      max 2 2 ≤ (computeBestPath (acm fun _ _ => (0 : ℤ)) 2 2).length ∧
      (computeBestPath (acm fun _ _ => (0 : ℤ)) 2 2).length ≤ 2 + 2 - 1) ∧
    (∀ P, stripeBestPathE (fun _ _ => (0 : ℤ)) 2 2 1 = some P →
      P.head? = some (0, 0) ∧
      P.getLast? = some (2 - 1, stripeDeltaClamp 1 2 - 1 +
        stripeCenters 2 2 (stripeDeltaClamp 1 2) (2 - 1)) ∧
      P.Chain' dtwStep ∧
      max 2 (stripeCenters 2 2 (stripeDeltaClamp 1 2) (2 - 1) +
        stripeDeltaClamp 1 2) ≤ P.length ∧
      P.length ≤ 2 + stripeCenters 2 2 (stripeDeltaClamp 1 2) (2 - 1) +
        stripeDeltaClamp 1 2 - 1)) :=
  ⟨⟨by decide, by decide, by decide⟩,
    c2_amended (fun _ _ => (0 : ℤ)) 2 2 1 (by decide) (by decide) (by decide)⟩

/-! ## Claim C3 -/

/-- Claim C3: during backtracking in both engines, at every interior cell
(`i > 0` and `j > 0`) the predecessor chosen is the first minimum of the
three candidate accumulated costs evaluated in the fixed order
`[(i-1,j), (i,j-1), (i-1,j-1)]` (for the Stripe engine the candidates are
the band-guarded costs, `∞` outside the band), so on ties up is preferred
over left, and left over diagonal. -/
theorem c3_tie_break {α : Type} [LinearOrderedAddCommGroup α]
    (C : Nat → Nat → α) (n m delta0 : Nat) :
    (∀ (t : Nat) (ht : t + 1 < (computeBestPath (acm C) n m).length),
      0 < ((computeBestPath (acm C) n m).get ⟨t + 1, ht⟩).1 →
      0 < ((computeBestPath (acm C) n m).get ⟨t + 1, ht⟩).2 →
      (computeBestPath (acm C) n m).get ⟨t, Nat.lt_of_succ_lt ht⟩ =
        (let p := (computeBestPath (acm C) n m).get ⟨t + 1, ht⟩
        [(p.1 - 1, p.2), (p.1, p.2 - 1), (p.1 - 1, p.2 - 1)].getD
          (firstMinIdx [acm C (p.1 - 1) p.2, acm C p.1 (p.2 - 1),
            acm C (p.1 - 1) (p.2 - 1)]) (0, 0))) ∧
    (∀ (t : Nat) (ht : t + 1 < (stripeBestPath C n m delta0).length),
      0 < ((stripeBestPath C n m delta0).get ⟨t + 1, ht⟩).1 →
      0 < ((stripeBestPath C n m delta0).get ⟨t + 1, ht⟩).2 →
      (stripeBestPath C n m delta0).get ⟨t, Nat.lt_of_succ_lt ht⟩ =
        (let p := (stripeBestPath C n m delta0).get ⟨t + 1, ht⟩
        let A := stripeAcm C n m delta0
        let cen := stripeCenters n m (stripeDeltaClamp delta0 m)
        let dl := stripeDeltaClamp delta0 m
        [(p.1 - 1, p.2), (p.1, p.2 - 1), (p.1 - 1, p.2 - 1)].getD
          (firstMinIdx [stripeCost0 A cen dl p.1 p.2, stripeCost1 A cen dl p.1 p.2,
            stripeCost2 A cen dl p.1 p.2]) (0, 0))) := by
  constructor
  · intro t ht h1 h2
    have hch := (backtrack_core (acm C) ((n - 1) + (m - 1)) (n - 1) (m - 1) le_rfl).2.1
    have hstep : (computeBestPath (acm C) n m).get ⟨t, Nat.lt_of_succ_lt ht⟩ =
        predExact (acm C) ((computeBestPath (acm C) n m).get ⟨t + 1, ht⟩) :=
      get_of_backChain hch t ht
    rw [hstep]
    exact predExact_interior (acm C) _ h1 h2
  · intro t ht h1 h2
    have hch := (backtrackStripe_core (stripeAcm C n m delta0)
      (stripeCenters n m (stripeDeltaClamp delta0 m)) (stripeDeltaClamp delta0 m)
      ((n - 1) + (stripeDeltaClamp delta0 m - 1 +
        stripeCenters n m (stripeDeltaClamp delta0 m) (n - 1)))
      (n - 1) (stripeDeltaClamp delta0 m - 1 +
        stripeCenters n m (stripeDeltaClamp delta0 m) (n - 1)) le_rfl).2.1
    have hstep : (stripeBestPath C n m delta0).get ⟨t, Nat.lt_of_succ_lt ht⟩ =
        predStripe (stripeAcm C n m delta0)
          (stripeCenters n m (stripeDeltaClamp delta0 m)) (stripeDeltaClamp delta0 m)
          ((stripeBestPath C n m delta0).get ⟨t + 1, ht⟩) :=
      get_of_backChain hch t ht
    rw [hstep]
    exact predStripe_interior (stripeAcm C n m delta0) _ _ _ h1 h2

theorem c3_witness :
    (0 < ((computeBestPath (acm fun i j => if i = j then (0 : ℤ) else 1) 2 2).get
        ⟨0 + 1, by decide⟩).1 ∧
      (computeBestPath (acm fun i j => if i = j then (0 : ℤ) else 1) 2 2).get
        ⟨0, by decide⟩ =
        (let p := (computeBestPath (acm fun i j => if i = j then (0 : ℤ) else 1) 2 2).get
          ⟨0 + 1, by decide⟩
        [(p.1 - 1, p.2), (p.1, p.2 - 1), (p.1 - 1, p.2 - 1)].getD
          (firstMinIdx [acm (fun i j => if i = j then (0 : ℤ) else 1) (p.1 - 1) p.2,
            acm (fun i j => if i = j then (0 : ℤ) else 1) p.1 (p.2 - 1),
            acm (fun i j => if i = j then (0 : ℤ) else 1) (p.1 - 1) (p.2 - 1)]) (0, 0))) := by
  refine ⟨by decide, ?_⟩
  exact (c3_tie_break (fun i j => if i = j then (0 : ℤ) else 1) 2 2 2).1 0 (by decide)
    (by decide) (by decide)

/-! ## Properties of the stripe centers -/

/-- The window start of the Stripe engine is the unclamped start capped at
`m - delta`. -/
theorem stripeCenters_eq_min (n m delta i : Nat) (hdm : delta ≤ m) :
    stripeCenters n m delta i = min (m * i / n - delta / 2) (m - delta) := by
  show (if m * i / n - delta / 2 + delta > m then m - delta else m * i / n - delta / 2) = _
  split_ifs with h
  · have hge : m - delta ≤ m * i / n - delta / 2 := by omega
    rw [min_eq_right hge]
  · have hle : m * i / n - delta / 2 ≤ m - delta := by omega
    rw [min_eq_left hle]

theorem stripeCenters_mono (n m delta : Nat) (hdm : delta ≤ m) :
    ∀ i j, i ≤ j → stripeCenters n m delta i ≤ stripeCenters n m delta j := by
  intro i j hij
  rw [stripeCenters_eq_min n m delta i hdm, stripeCenters_eq_min n m delta j hdm]
  have h1 : m * i ≤ m * j := Nat.mul_le_mul le_rfl hij
  have h2 : m * i / n ≤ m * j / n := Nat.div_le_div_right h1
  exact min_le_min (by omega) le_rfl

theorem stripeCenters_zero (n m delta : Nat) (hdm : delta ≤ m) :
    stripeCenters n m delta 0 = 0 := by
  rw [stripeCenters_eq_min n m delta 0 hdm]
  have h0 : m * 0 / n = 0 := by simp
  rw [h0]
  simp

/-- With a full-width band (`delta = m`) every window starts at column `0`. -/
theorem stripeCenters_full (n m i : Nat) : stripeCenters n m m i = 0 := by
  show (if m * i / n - m / 2 + m > m then m - m else m * i / n - m / 2) = 0
  split_ifs with h <;> omega

theorem stripeDeltaClamp_of_ge (delta0 m : Nat) (h : m ≤ delta0) :
    stripeDeltaClamp delta0 m = m := by
  unfold stripeDeltaClamp; split_ifs <;> omega

/-! ## Claim C5 -/

/-- Claim C5 counterexample: at `n = 2`, `m = 10`, `delta = 2` (a valid
Stripe configuration: `1 ≤ δ ≤ m`, and `δ < m`, so the Stripe engine
actually runs) the terminal center is `4`, not `m - δ = 8`. -/
theorem c5_counterexample :
    stripeCenters 2 10 2 (2 - 1) = 4 ∧ ¬ stripeCenters 2 10 2 (2 - 1) = 10 - 2 := by
  decide

/-- Claim C5 (amended): for every valid Stripe input (`n ≥ 1`,
`1 ≤ δ ≤ m`) the centers are non-decreasing and `centers 0 = 0`, but the
terminal center equals `min(⌊m(n-1)/n⌋ - ⌊δ/2⌋, m - δ)` (natural
subtraction): it is `m - δ` exactly when the unclamped window start already
reaches `m - δ`, which can fail when `m > n`. -/
theorem c5_centers_amended (n m delta : Nat) (hn : 1 ≤ n) (hd : 1 ≤ delta)
    (hdm : delta ≤ m) :
    (∀ i j, i ≤ j → stripeCenters n m delta i ≤ stripeCenters n m delta j) ∧
    stripeCenters n m delta 0 = 0 ∧
    stripeCenters n m delta (n - 1) =
      min (m * (n - 1) / n - delta / 2) (m - delta) :=
  ⟨stripeCenters_mono n m delta hdm, stripeCenters_zero n m delta hdm,
    stripeCenters_eq_min n m delta (n - 1) hdm⟩

theorem c5_witness :
    (∀ i j, i ≤ j → stripeCenters 4 4 2 i ≤ stripeCenters 4 4 2 j) ∧
    stripeCenters 4 4 2 0 = 0 ∧
    stripeCenters 4 4 2 (4 - 1) = min (4 * (4 - 1) / 4 - 2 / 2) (4 - 2) :=
  c5_centers_amended 4 4 2 (by decide) (by decide) (by decide)

/-! ## Claim C4: with a full-width band the Stripe engine equals Exact -/

theorem argmin3_coe {α : Type} [LinearOrder α] (a b c : α) :
    argmin3 ((a : α) : WithTop α) ((b : α) : WithTop α) ((c : α) : WithTop α) =
      argmin3 a b c := by
  unfold argmin3
  simp only [WithTop.coe_le_coe]

/-- With a full-width band and all-zero centers, the banded accumulated
matrix coincides (inside the band) with the Exact accumulated matrix. -/
theorem acmStripe_full {α : Type} [LinearOrderedAddCommGroup α]
    (C : Nat → Nat → α) (m : Nat) :
    ∀ i k, k < m →
      acmStripeRows (stripeLocalCost C (fun _ => 0)) (fun _ => 0) m i k =
        ((acm C i k : α) : WithTop α) := by
  intro i
  induction i with
  | zero =>
      intro k hk
      induction k with
      | zero =>
          show ((stripeLocalCost C (fun _ => 0) 0 0 : α) : WithTop α) = _
          simp [stripeLocalCost]
      | succ k ihk =>
          have ihk' := ihk (by omega)
          show ((stripeLocalCost C (fun _ => 0) 0 (k + 1) : α) : WithTop α) +
              acmStripeRows (stripeLocalCost C (fun _ => 0)) (fun _ => 0) m 0 k = _
          rw [ihk', ← WithTop.coe_add, WithTop.coe_inj]
          simp [stripeLocalCost]
  | succ i ihi =>
      intro k hk
      induction k with
      | zero =>
          have hm : 0 < m := by omega
          simp only [acmStripeRows, acmStripeNextRow]
          rw [if_pos (by omega), if_neg (by omega)]
          have hidx : (((0 : Int) + (((0 : Nat) : Int) - ((0 : Nat) : Int))).toNat) = 0 := by
            norm_num
          rw [hidx, ihi 0 hm]
          rw [min_comm (⊤ : WithTop α) _, min_eq_left (le_top), min_eq_left (le_top)]
          rw [← WithTop.coe_add, WithTop.coe_inj]
          simp [stripeLocalCost, add_comm]
      | succ k ihk =>
          have hk' : k < m := by omega
          have ihk' := ihk hk'
          simp only [acmStripeRows, acmStripeNextRow] at ihk' ⊢
          rw [if_pos (by omega), if_pos (by omega)]
          have hidx0 : ((((k + 1 : Nat) : Int) + (((0 : Nat) : Int) - ((0 : Nat) : Int))).toNat)
              = k + 1 := by norm_num
          have hidx2 : ((((k + 1 : Nat) : Int) + (((0 : Nat) : Int) - ((0 : Nat) : Int)) - 1).toNat)
              = k := by norm_num
          rw [hidx0, hidx2, ihi (k + 1) hk, ihi k hk', ihk']
          rw [← WithTop.coe_min, ← WithTop.coe_min, ← WithTop.coe_add, WithTop.coe_inj]
          simp [stripeLocalCost]

/-! Evaluation of the three guarded backtracking costs.  In the guards,
`r_j + offset` always collapses to `j - centers[i-1]` (computed in `ℤ`, so
without truncation). -/

theorem stripeCost0_eval {α : Type} [LinearOrderedAddCommGroup α]
    (A : Nat → Nat → WithTop α) (centers : Nat → Nat) (delta i j : Nat)
    (hge : centers (i - 1) ≤ j) (hlt : j - centers (i - 1) < delta) :
    stripeCost0 A centers delta i j = A (i - 1) (j - centers (i - 1)) := by
  simp only [stripeCost0]
  rw [if_pos (by omega)]
  congr 1
  omega

theorem stripeCost0_top {α : Type} [LinearOrderedAddCommGroup α]
    (A : Nat → Nat → WithTop α) (centers : Nat → Nat) (delta i j : Nat)
    (hge : (delta : Int) ≤ (j : Int) - (centers (i - 1) : Int)) :
    stripeCost0 A centers delta i j = ⊤ := by
  simp only [stripeCost0]
  rw [if_neg (by omega)]

theorem stripeCost1_eval {α : Type} [LinearOrderedAddCommGroup α]
    (A : Nat → Nat → WithTop α) (centers : Nat → Nat) (delta i j : Nat)
    (hgt : centers i < j) :
    stripeCost1 A centers delta i j = A i (j - centers i - 1) := by
  simp only [stripeCost1]
  rw [if_pos (by omega)]
  congr 1
  omega

theorem stripeCost1_top {α : Type} [LinearOrderedAddCommGroup α]
    (A : Nat → Nat → WithTop α) (centers : Nat → Nat) (delta i j : Nat)
    (hle : j ≤ centers i) :
    stripeCost1 A centers delta i j = ⊤ := by
  simp only [stripeCost1]
  rw [if_neg (by omega)]

theorem stripeCost2_eval {α : Type} [LinearOrderedAddCommGroup α]
    (A : Nat → Nat → WithTop α) (centers : Nat → Nat) (delta i j : Nat)
    (hgt : centers i < j) (hge : centers (i - 1) + 1 ≤ j)
    (hlt : j - centers (i - 1) - 1 < delta) :
    stripeCost2 A centers delta i j = A (i - 1) (j - centers (i - 1) - 1) := by
  simp only [stripeCost2]
  rw [if_pos (by omega)]
  congr 1
  omega

theorem stripeCost2_top {α : Type} [LinearOrderedAddCommGroup α]
    (A : Nat → Nat → WithTop α) (centers : Nat → Nat) (delta i j : Nat)
    (hle : j ≤ centers i) :
    stripeCost2 A centers delta i j = ⊤ := by
  simp only [stripeCost2]
  rw [if_neg (by omega)]

/-- With a full-width band and all-zero centers, the Stripe loop body
coincides with the Exact loop body inside the band. -/
theorem predStripe_full {α : Type} [LinearOrderedAddCommGroup α]
    (A' : Nat → Nat → WithTop α) (A : Nat → Nat → α) (m : Nat)
    (hA : ∀ a b, b < m → A' a b = ((A a b : α) : WithTop α)) :
    ∀ i j, j < m → predStripe A' (fun _ => 0) m (i, j) = predExact A (i, j) := by
  intro i j hj
  match i, j with
  | 0, j => rfl
  | i + 1, 0 => rfl
  | i + 1, j + 1 =>
      have hc0 : stripeCost0 A' (fun _ => 0) m (i + 1) (j + 1) =
          ((A i (j + 1) : α) : WithTop α) := by
        rw [stripeCost0_eval A' (fun _ => 0) m (i + 1) (j + 1) (by simp) (by simpa using hj)]
        simp only [Nat.add_sub_cancel, Nat.sub_zero]
        exact hA i (j + 1) hj
      have hc1 : stripeCost1 A' (fun _ => 0) m (i + 1) (j + 1) =
          ((A (i + 1) j : α) : WithTop α) := by
        rw [stripeCost1_eval A' (fun _ => 0) m (i + 1) (j + 1) (by simp)]
        simp only [Nat.add_sub_cancel, Nat.sub_zero]
        exact hA (i + 1) j (by omega)
      have hc2 : stripeCost2 A' (fun _ => 0) m (i + 1) (j + 1) =
          ((A i j : α) : WithTop α) := by
        rw [stripeCost2_eval A' (fun _ => 0) m (i + 1) (j + 1) (by simp) (by simp)
          (by simp; omega)]
        simp only [Nat.add_sub_cancel, Nat.sub_zero]
        exact hA i j (by omega)
      rcases hm3 : argmin3 (A i (j + 1)) (A (i + 1) j) (A i j) with _ | _ | mm <;>
        simp [predStripe, predExact, hc0, hc1, hc2, argmin3_coe, hm3]

/-- With a full-width band, all-zero centers and a banded accumulated matrix
agreeing with an Exact one inside the band, the Stripe backtracking produces
exactly the Exact backward list. -/
theorem backtrackStripe_full {α : Type} [LinearOrderedAddCommGroup α]
    (A' : Nat → Nat → WithTop α) (A : Nat → Nat → α) (m : Nat)
    (hA : ∀ a b, b < m → A' a b = ((A a b : α) : WithTop α)) :
    ∀ fuel i j, i + j ≤ fuel → j < m →
      backtrackStripeRows A' (fun _ => 0) m i j = backtrackRows A i j := by
  intro fuel
  induction fuel with
  | zero =>
      intro i j hij hj
      have hi0 : i = 0 := by omega
      have hj0 : j = 0 := by omega
      subst hi0; subst hj0; rfl
  | succ fuel ih =>
      intro i j hij hj
      by_cases h0 : i = 0 ∧ j = 0
      · obtain ⟨h1, h2⟩ := h0; subst h1; subst h2; rfl
      · rw [backtrackStripeRows_cons A' (fun _ => 0) m i j h0, backtrackRows_cons A i j h0,
          predStripe_full A' A m hA i j hj]
        obtain ⟨hstep, hsum, hle1, hle2, hpi, hpj⟩ := predExact_facts A i j h0
        rw [List.cons.injEq]
        exact ⟨rfl, ih _ _ (by omega) (by omega)⟩

/-- Claim C4: when the configured `delta` is at least `m` (so the band is
clamped to the full width `m`), the Stripe engine computes the same
accumulated value at the terminal cell as the Exact engine, returns the very
same path, and in particular a path of identical total cost. -/
theorem c4_stripe_exact_agreement {α : Type} [LinearOrderedAddCommGroup α]
    (C : Nat → Nat → α) (n m delta0 : Nat) (hn : 1 ≤ n) (hm : 1 ≤ m)
    (hge : m ≤ delta0) :
    stripeAcm C n m delta0 (n - 1) (m - 1) =
      ((acm C (n - 1) (m - 1) : α) : WithTop α) ∧
    stripeBestPath C n m delta0 = computeBestPath (acm C) n m ∧
    pathCost C (stripeBestPath C n m delta0) =
      pathCost C (computeBestPath (acm C) n m) := by
  have hclamp : stripeDeltaClamp delta0 m = m := stripeDeltaClamp_of_ge delta0 m hge
  have hcen : stripeCenters n m (stripeDeltaClamp delta0 m) = fun _ => 0 := by
    rw [hclamp]; exact funext (stripeCenters_full n m)
  have hacm : ∀ a b, b < m →
      stripeAcm C n m delta0 a b = ((acm C a b : α) : WithTop α) := by
    intro a b hb
    show acmStripeRows (stripeLocalCost C (stripeCenters n m (stripeDeltaClamp delta0 m)))
      (stripeCenters n m (stripeDeltaClamp delta0 m)) (stripeDeltaClamp delta0 m) a b = _
    rw [hcen, hclamp]
    exact acmStripe_full C m a b hb
  have hpath : stripeBestPath C n m delta0 = computeBestPath (acm C) n m := by
    show (backtrackStripeRows (stripeAcm C n m delta0)
        (stripeCenters n m (stripeDeltaClamp delta0 m)) (stripeDeltaClamp delta0 m)
        (n - 1) (stripeDeltaClamp delta0 m - 1 +
          stripeCenters n m (stripeDeltaClamp delta0 m) (n - 1))).reverse = _
    rw [hcen, hclamp]
    exact congrArg List.reverse
      (backtrackStripe_full (stripeAcm C n m delta0) (acm C) m hacm
        ((n - 1) + (m - 1 + 0)) (n - 1) (m - 1 + 0) le_rfl (by omega))
  exact ⟨hacm (n - 1) (m - 1) (by omega), hpath, by rw [hpath]⟩

theorem c4_witness :
    stripeAcm (fun i j => if i = j then (0 : ℤ) else 1) 2 2 3 (2 - 1) (2 - 1) =
      ((acm (fun i j => if i = j then (0 : ℤ) else 1) (2 - 1) (2 - 1) : ℤ) : WithTop ℤ) ∧
    stripeBestPath (fun i j => if i = j then (0 : ℤ) else 1) 2 2 3 =
      computeBestPath (acm fun i j => if i = j then (0 : ℤ) else 1) 2 2 ∧
    pathCost (fun i j => if i = j then (0 : ℤ) else 1)
        (stripeBestPath (fun i j => if i = j then (0 : ℤ) else 1) 2 2 3) =
      pathCost (fun i j => if i = j then (0 : ℤ) else 1)
        (computeBestPath (acm fun i j => if i = j then (0 : ℤ) else 1) 2 2) :=
  c4_stripe_exact_agreement (fun i j => if i = j then (0 : ℤ) else 1) 2 2 3
    (by decide) (by decide) (by decide)

/-! ## Claim C6: band containment of the Stripe path

The backtracking loop never checks that the `argmin` move stays inside the
band of the target row: whenever all three candidates are `∞`,
`numpy.argmin` returns `0` and the loop jumps up and out of the band (this
happens exactly when the center offset to the previous row is at least
`delta` and the loop sits at the left edge of the band).  Containment does
hold whenever all consecutive center offsets are smaller than `delta`. -/

theorem stripeCost0_guard {α : Type} [LinearOrderedAddCommGroup α]
    (A : Nat → Nat → WithTop α) (centers : Nat → Nat) (delta i j : Nat)
    (h : stripeCost0 A centers delta i j ≠ ⊤) :
    (j : Int) - (centers (i - 1) : Int) < (delta : Int) := by
  by_contra hcon
  exact h (stripeCost0_top A centers delta i j (by omega))

theorem stripeCost1_guard {α : Type} [LinearOrderedAddCommGroup α]
    (A : Nat → Nat → WithTop α) (centers : Nat → Nat) (delta i j : Nat)
    (h : stripeCost1 A centers delta i j ≠ ⊤) :
    centers i < j := by
  by_contra hcon
  exact h (stripeCost1_top A centers delta i j (by omega))

theorem stripeCost2_guard {α : Type} [LinearOrderedAddCommGroup α]
    (A : Nat → Nat → WithTop α) (centers : Nat → Nat) (delta i j : Nat)
    (h : stripeCost2 A centers delta i j ≠ ⊤) :
    centers i < j ∧ centers (i - 1) < j ∧
      (j : Int) - (centers (i - 1) : Int) - 1 < (delta : Int) := by
  by_contra hcon
  apply h
  simp only [stripeCost2]
  rw [if_neg (by omega)]

theorem coe_add_min3_ne_top {α : Type} [LinearOrderedAddCommGroup α] (a : α)
    (c0 c1 c2 : WithTop α) (h : c0 ≠ ⊤ ∨ c1 ≠ ⊤) :
    ((a : α) : WithTop α) + min c0 (min c1 c2) ≠ ⊤ := by
  intro htop
  rw [WithTop.add_eq_top] at htop
  rcases htop with h' | h'
  · exact WithTop.coe_ne_top h'
  · rcases h with hne | hne
    · exact hne (top_le_iff.mp (h' ▸ min_le_left c0 (min c1 c2)))
    · exact hne (top_le_iff.mp
        ((h' ▸ min_le_right c0 (min c1 c2)).trans (min_le_left c1 c2)))

/-- When all consecutive center offsets up to row `n-1` are smaller than
`delta`, every in-band entry of the banded accumulated matrix (rows `< n`)
is finite. -/
theorem acmStripe_ne_top {α : Type} [LinearOrderedAddCommGroup α]
    (C' : Nat → Nat → α) (centers : Nat → Nat) (delta n : Nat)
    (hJump : ∀ t, t + 1 < n → centers (t + 1) - centers t < delta)
    (hmono : ∀ t, centers t ≤ centers (t + 1)) :
    ∀ i, i < n → ∀ k, k < delta → acmStripeRows C' centers delta i k ≠ ⊤ := by
  intro i
  induction i with
  | zero =>
      intro _ k hk
      induction k with
      | zero => exact WithTop.coe_ne_top
      | succ k ihk =>
          show ((C' 0 (k + 1) : α) : WithTop α) +
            acmStripeRows C' centers delta 0 k ≠ ⊤
          intro htop
          rw [WithTop.add_eq_top] at htop
          rcases htop with h | h
          · exact WithTop.coe_ne_top h
          · exact ihk (by omega) h
  | succ i ihi =>
      intro hi k hk
      have hrow : i < n := by omega
      have hoff1 : centers i ≤ centers (i + 1) := hmono i
      have hoff2 : centers (i + 1) - centers i < delta := hJump i hi
      induction k with
      | zero =>
          simp only [acmStripeRows, acmStripeNextRow]
          rw [if_pos (by omega)]
          have hidx : (((0 : Int) + ((centers (i + 1) : Int) - (centers i : Int))).toNat) =
              centers (i + 1) - centers i := by omega
          rw [hidx]
          exact coe_add_min3_ne_top _ _ _ _
            (Or.inl (ihi hrow (centers (i + 1) - centers i) (by omega)))
      | succ k ihk =>
          have hfin1 := ihk (by omega)
          simp only [acmStripeRows, acmStripeNextRow] at hfin1 ⊢
          exact coe_add_min3_ne_top _ _ _ _ (Or.inr hfin1)

/-- One backtracking step of the Stripe engine stays inside the band of the
target row, provided all consecutive center offsets up to row `n-1` are
smaller than `delta`. -/
theorem predStripe_band {α : Type} [LinearOrderedAddCommGroup α]
    (C' : Nat → Nat → α) (centers : Nat → Nat) (delta n : Nat) (hd : 1 ≤ delta)
    (hJump : ∀ t, t + 1 < n → centers (t + 1) - centers t < delta)
    (hmono : ∀ t, centers t ≤ centers (t + 1)) (hzero : centers 0 = 0)
    (i j : Nat) (h0 : ¬(i = 0 ∧ j = 0)) (hi : i < n)
    (hlo : centers i ≤ j) (hhi : j < centers i + delta) :
    (predStripe (acmStripeRows C' centers delta) centers delta (i, j)).1 < n ∧
    centers (predStripe (acmStripeRows C' centers delta) centers delta (i, j)).1 ≤
      (predStripe (acmStripeRows C' centers delta) centers delta (i, j)).2 ∧
    (predStripe (acmStripeRows C' centers delta) centers delta (i, j)).2 <
      centers (predStripe (acmStripeRows C' centers delta) centers delta (i, j)).1 +
        delta := by
  rcases i with _ | i
  · rcases j with _ | j
    · exact absurd ⟨rfl, rfl⟩ h0
    · simp only [predStripe, Nat.add_sub_cancel]
      exact ⟨hi, by omega, by omega⟩
  · rcases j with _ | j
    · simp only [predStripe]
      have h1 : centers (i + 1) = 0 := by omega
      have h2 : centers i = 0 := by have := hmono i; omega
      exact ⟨by omega, by omega, by omega⟩
    · have hioff : centers (i + 1) - centers i < delta := hJump i hi
      have hmono' : centers i ≤ centers (i + 1) := hmono i
      set A := acmStripeRows C' centers delta with hA
      have hminne : min (stripeCost0 A centers delta (i + 1) (j + 1))
          (min (stripeCost1 A centers delta (i + 1) (j + 1))
            (stripeCost2 A centers delta (i + 1) (j + 1))) ≠ ⊤ := by
        by_cases hrj : centers (i + 1) < j + 1
        · have hc1 := stripeCost1_eval A centers delta (i + 1) (j + 1) hrj
          have hfin : A (i + 1) (j + 1 - centers (i + 1) - 1) ≠ ⊤ :=
            acmStripe_ne_top C' centers delta n hJump hmono (i + 1) hi _ (by omega)
          have hc1ne : stripeCost1 A centers delta (i + 1) (j + 1) ≠ ⊤ := by
            rw [hc1]; exact hfin
          exact ne_top_of_le_ne_top hc1ne
            ((min_le_right _ _).trans (min_le_left _ _))
        · have hj1 : j + 1 = centers (i + 1) := by omega
          have hc0 := stripeCost0_eval A centers delta (i + 1) (j + 1)
            (by simp only [Nat.add_sub_cancel]; omega)
            (by simp only [Nat.add_sub_cancel]; omega)
          have hfin : A (i + 1 - 1) (j + 1 - centers (i + 1 - 1)) ≠ ⊤ := by
            simp only [Nat.add_sub_cancel]
            exact acmStripe_ne_top C' centers delta n hJump hmono i (by omega) _ (by omega)
          have hc0ne : stripeCost0 A centers delta (i + 1) (j + 1) ≠ ⊤ := by
            rw [hc0]; exact hfin
          exact ne_top_of_le_ne_top hc0ne (min_le_left _ _)
      have hsel := argmin3_getD (stripeCost0 A centers delta (i + 1) (j + 1))
        (stripeCost1 A centers delta (i + 1) (j + 1))
        (stripeCost2 A centers delta (i + 1) (j + 1))
      have h3 := argmin3_lt_three (stripeCost0 A centers delta (i + 1) (j + 1))
        (stripeCost1 A centers delta (i + 1) (j + 1))
        (stripeCost2 A centers delta (i + 1) (j + 1))
      rcases hm : argmin3 (stripeCost0 A centers delta (i + 1) (j + 1))
          (stripeCost1 A centers delta (i + 1) (j + 1))
          (stripeCost2 A centers delta (i + 1) (j + 1)) with _ | _ | mm
      · rw [hm] at hsel
        simp only [List.getD, List.get?, Option.getD] at hsel
        have hne : stripeCost0 A centers delta (i + 1) (j + 1) ≠ ⊤ := by
          rw [hsel]; exact hminne
        have hguard := stripeCost0_guard A centers delta (i + 1) (j + 1) hne
        simp only [Nat.add_sub_cancel] at hguard
        simp only [predStripe, hm]
        refine ⟨by omega, by omega, by omega⟩
      · rw [hm] at hsel
        simp only [List.getD, List.get?, Option.getD] at hsel
        have hne : stripeCost1 A centers delta (i + 1) (j + 1) ≠ ⊤ := by
          rw [hsel]; exact hminne
        have hguard := stripeCost1_guard A centers delta (i + 1) (j + 1) hne
        simp only [predStripe, hm]
        refine ⟨by omega, by omega, by omega⟩
      · rw [hm] at h3 hsel
        have hm0 : mm = 0 := by omega
        subst hm0
        simp only [List.getD, List.get?, Option.getD] at hsel
        have hne : stripeCost2 A centers delta (i + 1) (j + 1) ≠ ⊤ := by
          rw [hsel]; exact hminne
        have hguard := stripeCost2_guard A centers delta (i + 1) (j + 1) hne
        simp only [Nat.add_sub_cancel] at hguard
        simp only [predStripe, hm]
        refine ⟨by omega, by omega, by omega⟩

/-- Band invariant of the Stripe backtracking under the small-offset
hypothesis. -/
theorem backtrackStripe_band {α : Type} [LinearOrderedAddCommGroup α]
    (C' : Nat → Nat → α) (centers : Nat → Nat) (delta n : Nat) (hd : 1 ≤ delta)
    (hJump : ∀ t, t + 1 < n → centers (t + 1) - centers t < delta)
    (hmono : ∀ t, centers t ≤ centers (t + 1)) (hzero : centers 0 = 0) :
    ∀ fuel i j, i + j ≤ fuel → i < n → centers i ≤ j → j < centers i + delta →
      ∀ p ∈ backtrackStripeRows (acmStripeRows C' centers delta) centers delta i j,
        p.1 < n ∧ centers p.1 ≤ p.2 ∧ p.2 < centers p.1 + delta := by
  intro fuel
  induction fuel with
  | zero =>
      intro i j hij hi hlo hhi p hp
      have hi0 : i = 0 := by omega
      have hj0 : j = 0 := by omega
      subst hi0; subst hj0
      have : p = (0, 0) := by simpa [backtrackStripeRows, backtrackFirstRow] using hp
      subst this
      refine ⟨hi, ?_, ?_⟩ <;> dsimp only <;> omega
  | succ fuel ih =>
      intro i j hij hi hlo hhi p hp
      by_cases h0 : i = 0 ∧ j = 0
      · obtain ⟨h1, h2⟩ := h0
        subst h1; subst h2
        have : p = (0, 0) := by simpa [backtrackStripeRows, backtrackFirstRow] using hp
        subst this
        refine ⟨hi, ?_, ?_⟩ <;> dsimp only <;> omega
      · rw [backtrackStripeRows_cons _ centers delta i j h0] at hp
        rcases List.mem_cons.mp hp with rfl | hp'
        · exact ⟨hi, hlo, hhi⟩
        · obtain ⟨hp1, hp2, hp3⟩ :=
            predStripe_band C' centers delta n hd hJump hmono hzero i j h0 hi hlo hhi
          obtain ⟨hstep, hsum, hle1, hle2, hpi, hpj⟩ :=
            predStripe_facts (acmStripeRows C' centers delta) centers delta i j h0
          exact ih _ _ (by omega) hp1 hp2 hp3 p hp'

/-- Claim C6 counterexample: with the constant-zero cost matrix, `n = 2`,
`m = 20`, configured `delta = 3` (valid: the Stripe engine runs,
`1 ≤ δ ≤ m`), the returned path visits the cell `(0, 9)`, which lies far
outside the band of row `0` (`centers[0] = 0`, width `3`): the center jump
`centers[1] - centers[0] = 9 ≥ δ` lets the backtracking fall out of the
band. -/
theorem c6_counterexample :
    (0, 9) ∈ stripeBestPath (fun _ _ => (0 : ℤ)) 2 20 3 ∧
    ¬ (stripeCenters 2 20 (stripeDeltaClamp 3 20) 0 ≤ 9 ∧
        9 < stripeCenters 2 20 (stripeDeltaClamp 3 20) 0 + stripeDeltaClamp 3 20) := by
  decide

/-- Claim C6 (amended): band containment of the Stripe path holds under the
additional hypothesis that every consecutive center offset
`centers[t+1] - centers[t]` (for rows `t+1 < n`) is smaller than `delta`;
without that hypothesis the backtracking can leave the band (see the
counterexample).  Under the hypothesis, every absolute index pair `(i, j)`
on the returned path satisfies `centers[i] ≤ j < centers[i] + delta`. -/
theorem c6_band_containment_amended {α : Type} [LinearOrderedAddCommGroup α]
    (C : Nat → Nat → α) (n m delta0 : Nat)
    (hn : 1 ≤ n) (hm : 1 ≤ m) (hd : 1 ≤ delta0)
    (hJump : ∀ t < n - 1,
      stripeCenters n m (stripeDeltaClamp delta0 m) (t + 1) -
        stripeCenters n m (stripeDeltaClamp delta0 m) t < stripeDeltaClamp delta0 m) :
    ∀ p ∈ stripeBestPath C n m delta0,
      stripeCenters n m (stripeDeltaClamp delta0 m) p.1 ≤ p.2 ∧
      p.2 < stripeCenters n m (stripeDeltaClamp delta0 m) p.1 +
        stripeDeltaClamp delta0 m := by
  intro p hp
  have hdc : 1 ≤ stripeDeltaClamp delta0 m := stripeDeltaClamp_pos delta0 m hd hm
  have hdm : stripeDeltaClamp delta0 m ≤ m := stripeDeltaClamp_le delta0 m
  have hmono : ∀ t, stripeCenters n m (stripeDeltaClamp delta0 m) t ≤
      stripeCenters n m (stripeDeltaClamp delta0 m) (t + 1) :=
    fun t => stripeCenters_mono n m (stripeDeltaClamp delta0 m) hdm t (t + 1) (by omega)
  have hzero : stripeCenters n m (stripeDeltaClamp delta0 m) 0 = 0 :=
    stripeCenters_zero n m (stripeDeltaClamp delta0 m) hdm
  have hp' : p ∈ backtrackStripeRows
      (acmStripeRows (stripeLocalCost C (stripeCenters n m (stripeDeltaClamp delta0 m)))
        (stripeCenters n m (stripeDeltaClamp delta0 m)) (stripeDeltaClamp delta0 m))
      (stripeCenters n m (stripeDeltaClamp delta0 m)) (stripeDeltaClamp delta0 m)
      (n - 1) (stripeDeltaClamp delta0 m - 1 +
        stripeCenters n m (stripeDeltaClamp delta0 m) (n - 1)) := by
    rw [← List.mem_reverse]
    exact hp
  exact (backtrackStripe_band
    (stripeLocalCost C (stripeCenters n m (stripeDeltaClamp delta0 m)))
    (stripeCenters n m (stripeDeltaClamp delta0 m)) (stripeDeltaClamp delta0 m) n hdc
    (fun t ht => hJump t (by omega)) hmono hzero
    ((n - 1) + (stripeDeltaClamp delta0 m - 1 +
      stripeCenters n m (stripeDeltaClamp delta0 m) (n - 1)))
    (n - 1) (stripeDeltaClamp delta0 m - 1 +
      stripeCenters n m (stripeDeltaClamp delta0 m) (n - 1))
    le_rfl (by omega) (by omega) (by omega) p hp').2

theorem c6_witness :
    stripeCenters 4 4 (stripeDeltaClamp 2 4) 3 ≤ 3 ∧
    3 < stripeCenters 4 4 (stripeDeltaClamp 2 4) 3 + stripeDeltaClamp 2 4 :=
  c6_band_containment_amended (fun _ _ => (0 : ℤ)) 4 4 2 (by decide) (by decide)
    (by decide) (by decide) (3, 3) (by decide)

/-! ## The cosine-distance cost kernel (claim C7)

`DTWExact._compute_cost_matrix` (dtw.py lines 545-562) and
`DTWStripe._compute_cost_matrix` (lines 374-406) both compute
`1 - (u·v)/(‖u‖₂‖v‖₂)` on the columns of the inputs with row `0` dropped.
The square root of the norm computation is kept as a parameter `sqrtFn`
(it is `numpy.sqrt` in the source); a zero denominator makes the division
undefined — the source divides unguarded, which produces an IEEE NaN at run
time — and is modelled by `none`. -/

def dotProd {α : Type} [LinearOrderedField α] (u v : List α) : α :=
  (List.zipWith (· * ·) u v).sum

def sumSq {α : Type} [LinearOrderedField α] (u : List α) : α :=
  (u.map fun x => x * x).sum

/-- Column `j` of a matrix given as a list of rows. -/
def column {α : Type} [Zero α] (rows : List (List α)) (j : Nat) : List α :=
  rows.map fun r => r.getD j 0

/-- The scalar cosine-distance kernel (lines 402-404 and 554-559):
`1 - (u·v)/(sqrt(Σu²)·sqrt(Σv²))`, undefined (`none`) when the denominator
is zero. -/
def cosineCost {α : Type} [LinearOrderedField α] (sqrtFn : α → α)
    (u v : List α) : Option α :=
  let den := sqrtFn (sumSq u) * sqrtFn (sumSq v)
  if den = 0 then none else some (1 - dotProd u v / den)

/-- Entry `(i, j)` of the Exact cost matrix (row `0` of each input MFCC
matrix dropped, lines 548-549). -/
def exactCostEntry {α : Type} [LinearOrderedField α] (sqrtFn : α → α)
    (m1 m2 : List (List α)) (i j : Nat) : Option α :=
  cosineCost sqrtFn (column (m1.drop 1) i) (column (m2.drop 1) j)

/-- Local entry `(i, k)` of the Stripe cost matrix: the same scalar kernel
at absolute column `centers i + k` (lines 401-404). -/
def stripeCostEntry {α : Type} [LinearOrderedField α] (sqrtFn : α → α)
    (m1 m2 : List (List α)) (centers : Nat → Nat) (i k : Nat) : Option α :=
  cosineCost sqrtFn (column (m1.drop 1) i) (column (m2.drop 1) (centers i + k))

/-- Claim C7 counterexample: on MFCC matrices `[[0,0],[1,1]]` and
`[[0,0],[1,0]]` (coefficients 2, frames 2; reduced column `1` of the second
matrix is the zero vector `[0]`), the cost entry `(0, 1)` is the undefined
quotient `none` — a NaN at run time — and in particular is not set to `1`.
Here `sqrtFn = id` agrees with the real square root on every attained value
(`0` and `1`). -/
theorem c7_counterexample :
    exactCostEntry (fun x : ℚ => x) [[0, 0], [1, 1]] [[0, 0], [1, 0]] 0 1 = none ∧
    ¬ exactCostEntry (fun x : ℚ => x) [[0, 0], [1, 1]] [[0, 0], [1, 0]] 0 1 =
        some 1 := by
  have h : exactCostEntry (fun x : ℚ => x) [[0, 0], [1, 1]] [[0, 0], [1, 0]] 0 1 =
      none := by
    simp only [exactCostEntry, cosineCost, column, sumSq, dotProd]
    norm_num
  exact ⟨h, by rw [h]; simp⟩

/-- Claim C7 (amended): when a reduced column of either input MFCC matrix
has zero norm — real-wave column `i` of the first input or synthesized
column `j` of the second — every cost-matrix entry involving it is
computed, in both constructions, by an unguarded division whose
denominator is zero: the result is undefined (`none` here, an IEEE NaN at
run time) rather than `1`, and no error is surfaced — the spec's
`cost = 1` rule is a tightening that the source does not implement. -/
theorem c7_zero_norm_amended {α : Type} [LinearOrderedField α] (sqrtFn : α → α)
    (m1 m2 : List (List α)) (h0 : sqrtFn 0 = 0) :
    (∀ i j, sumSq (column (m1.drop 1) i) = 0 ∨ sumSq (column (m2.drop 1) j) = 0 →
      exactCostEntry sqrtFn m1 m2 i j = none) ∧
    (∀ (centers : Nat → Nat) (i k : Nat),
      sumSq (column (m1.drop 1) i) = 0 ∨
        sumSq (column (m2.drop 1) (centers i + k)) = 0 →
      stripeCostEntry sqrtFn m1 m2 centers i k = none) := by
  constructor
  · intro i j hz
    simp only [exactCostEntry, cosineCost]
    rcases hz with hz | hz
    · rw [hz, h0, zero_mul]
      simp
    · rw [hz, h0, mul_zero]
      simp
  · intro centers i k hz
    simp only [stripeCostEntry, cosineCost]
    rcases hz with hz | hz
    · rw [hz, h0, zero_mul]
      simp
    · rw [hz, h0, mul_zero]
      simp

theorem c7_witness :
    ((fun x : ℚ => x) 0 = 0 ∧
      sumSq (column (([[0, 0], [0, 1]] : List (List ℚ)).drop 1) 0) = 0 ∧
      sumSq (column (([[0, 0], [1, 0]] : List (List ℚ)).drop 1) 1) = 0) ∧
    ((∀ i j, sumSq (column (([[0, 0], [0, 1]] : List (List ℚ)).drop 1) i) = 0 ∨
        sumSq (column (([[0, 0], [1, 0]] : List (List ℚ)).drop 1) j) = 0 →
        exactCostEntry (fun x : ℚ => x) [[0, 0], [0, 1]] [[0, 0], [1, 0]] i j = none) ∧
      (∀ (centers : Nat → Nat) (i k : Nat),
        sumSq (column (([[0, 0], [0, 1]] : List (List ℚ)).drop 1) i) = 0 ∨
          sumSq (column (([[0, 0], [1, 0]] : List (List ℚ)).drop 1) (centers i + k)) = 0 →
        stripeCostEntry (fun x : ℚ => x) [[0, 0], [0, 1]] [[0, 0], [1, 0]]
          centers i k = none)) := by
  have h1 : (fun x : ℚ => x) 0 = 0 := rfl
  have h2 : sumSq (column (([[0, 0], [0, 1]] : List (List ℚ)).drop 1) 0) = 0 := by
    simp only [column, sumSq]
    norm_num
  have h3 : sumSq (column (([[0, 0], [1, 0]] : List (List ℚ)).drop 1) 1) = 0 := by
    simp only [column, sumSq]
    norm_num
  exact ⟨⟨h1, h2, h3⟩,
    c7_zero_norm_amended (fun x : ℚ => x) [[0, 0], [0, 1]] [[0, 0], [1, 0]] h1⟩

/-! ## The coordinator `DTWAligner` (claims C8 and C9) -/

inductive DTWAlgorithm
  | exact
  | stripe
deriving DecidableEq

/-- Algorithm selection of `DTWAligner._setup_dtw` (dtw.py lines 227-235):
when `m ≤ delta` and the C extension cannot be used, force EXACT; otherwise
keep the configured algorithm. -/
def selectAlgorithm (alg : DTWAlgorithm) (delta : Int) (m : Nat)
    (cExtAvailable : Bool) : DTWAlgorithm :=
  if (m : Int) ≤ delta then (if cExtAvailable then alg else .exact) else alg

/-- `delta = int(2 * dtw_margin / mfcc_win_shift)` (line 222); for the
non-negative quotients arising from valid configurations, Python `int`
truncation coincides with the floor. -/
def setupDelta (dtwMargin mfccWinShift : ℚ) : Int :=
  ⌊2 * dtwMargin / mfccWinShift⌋

inductive SetupError
  | notInitializedReal
  | notInitializedSynt
deriving DecidableEq

/-- `DTWAligner._setup_dtw` (lines 210-253): raises
`DTWAlignerNotInitialized` when either MFCC object is missing; otherwise it
computes `delta`, selects the algorithm and constructs the engine.  The code
contains no validation of `delta`. -/
def setupDtw (realInitialized syntInitialized : Bool) (alg : DTWAlgorithm)
    (dtwMargin mfccWinShift : ℚ) (m : Nat) (cExtAvailable : Bool) :
    Except SetupError (DTWAlgorithm × Int) :=
  if ¬realInitialized then .error .notInitializedReal
  else if ¬syntInitialized then .error .notInitializedSynt
  else
    .ok (selectAlgorithm alg (setupDelta dtwMargin mfccWinShift) m cExtAvailable,
      setupDelta dtwMargin mfccWinShift)

/-- The result of the selected engine (lines 238-252): the Exact engine
always returns a path; the Stripe engine's backtracking can raise
`IndexError` (modelled by `none`), and then no path is produced. -/
def enginePath {α : Type} [LinearOrderedAddCommGroup α] (alg : DTWAlgorithm)
    (C : Nat → Nat → α) (n m delta : Nat) : Option (List (Nat × Nat)) :=
  match alg with
  | .exact => some (computeBestPath (acm C) n m)
  | .stripe => stripeBestPathE C n m delta

/-- `DTWAligner.compute_path` (lines 190-208): run the selected engine,
then shift every real-wave index by `head_length` and store the pair
`(real_indices, synt_indices)`; when the engine fails, the exception
propagates out of `compute_path` and nothing is stored (`none`). -/
def alignerComputePath {α : Type} [LinearOrderedAddCommGroup α]
    (alg : DTWAlgorithm) (C : Nat → Nat → α) (n m delta headLength : Nat)
    (cExtAvailable : Bool) : Option (List Nat × List Nat) :=
  (enginePath (selectAlgorithm alg (delta : Int) m cExtAvailable) C n m delta).map
    fun wavePath => (wavePath.map fun p => p.1 + headLength, wavePath.map fun p => p.2)

/-! ## Claim C8 -/

/-- Claim C8 counterexample: with the Stripe algorithm configured, the
constant-zero cost matrix, `n = 2`, `m = 10`, `delta = 2` and no C
extension, `compute_path` stores a synthesized-index sequence ending at
`5`, not at `m - 1 = 9`; and with `n = 3`, `m = 30`, `delta = 3` the
backtracking raises `IndexError` and nothing is stored at all. -/
theorem c8_counterexample :
    alignerComputePath DTWAlgorithm.stripe (fun _ _ => (0 : ℤ)) 2 10 2 0 false =
      some ([0, 0, 0, 0, 0, 0, 1], [0, 1, 2, 3, 4, 5, 5]) ∧
    ([0, 1, 2, 3, 4, 5, 5] : List Nat).getLast? ≠ some (10 - 1) ∧
    alignerComputePath DTWAlgorithm.stripe (fun _ _ => (0 : ℤ)) 3 30 3 0 false =
      none := by
  decide

theorem dtwStep_mono {p q : Nat × Nat} (h : dtwStep p q) : p.1 ≤ q.1 ∧ p.2 ≤ q.2 := by
  rcases h with ⟨h1, h2⟩ | ⟨h1, h2⟩ | ⟨h1, h2⟩ <;> omega

/-- Claim C8 (amended): `compute_path` stores a result only when the
selected engine succeeds — the Stripe backtracking can raise `IndexError`
after escaping the band, and then the exception propagates and nothing is
stored (see the counterexample).  Every stored result is a pair of
equal-length integer sequences, each monotone non-decreasing, with the
real indices starting at `head_length` and ending at
`head_length + n - 1`, and the synthesized indices starting at `0`; the
synthesized indices end at `m - 1` when the Exact engine is selected, and
at `centers[n-1] + delta - 1` when the Stripe engine is selected (which is
`m - 1` exactly when `centers[n-1] = m - delta`). -/
theorem c8_amended {α : Type} [LinearOrderedAddCommGroup α]
    (alg : DTWAlgorithm) (C : Nat → Nat → α) (n m delta headLength : Nat)
    (cExt : Bool) (hn : 1 ≤ n) (hm : 1 ≤ m) (hd : 1 ≤ delta) :
    ∀ r, alignerComputePath alg C n m delta headLength cExt = some r →
      r.1.length = r.2.length ∧
      r.1.Chain' (· ≤ ·) ∧
      r.2.Chain' (· ≤ ·) ∧
      r.1.head? = some headLength ∧
      r.1.getLast? = some (headLength + (n - 1)) ∧
      r.2.head? = some 0 ∧
      r.2.getLast? =
        some (match selectAlgorithm alg (delta : Int) m cExt with
          | .exact => m - 1
          | .stripe => stripeDeltaClamp delta m - 1 +
              stripeCenters n m (stripeDeltaClamp delta m) (n - 1)) := by
  intro r hr
  rw [alignerComputePath, Option.map_eq_some'] at hr
  obtain ⟨wavePath, hw, rfl⟩ := hr
  have hfacts : wavePath.head? = some (0, 0) ∧
      wavePath.getLast? =
        some (n - 1, match selectAlgorithm alg (delta : Int) m cExt with
          | .exact => m - 1
          | .stripe => stripeDeltaClamp delta m - 1 +
              stripeCenters n m (stripeDeltaClamp delta m) (n - 1)) ∧
      wavePath.Chain' dtwStep := by
    cases hsel : selectAlgorithm alg (delta : Int) m cExt with
    | exact =>
        rw [hsel] at hw
        have hw2 : some (computeBestPath (acm C) n m) = some wavePath := hw
        rw [Option.some_inj] at hw2
        subst hw2
        obtain ⟨h1, h2, h3, _, _⟩ := computeBestPath_facts (acm C) n m hn hm
        exact ⟨h1, h2, h3⟩
    | stripe =>
        rw [hsel] at hw
        have hw2 : computeBestPathStripeE (stripeAcm C n m delta)
            (stripeCenters n m (stripeDeltaClamp delta m))
            (stripeDeltaClamp delta m) n = some wavePath := hw
        obtain ⟨h1, h2, h3, _, _⟩ :=
          computeBestPathStripeE_facts (stripeAcm C n m delta)
            (stripeCenters n m (stripeDeltaClamp delta m)) (stripeDeltaClamp delta m) n
            hn (stripeDeltaClamp_pos delta m hd hm) wavePath hw2
        exact ⟨h1, h2, h3⟩
  obtain ⟨hh, hl, hc⟩ := hfacts
  refine ⟨?_, ?_, ?_, ?_, ?_, ?_, ?_⟩
  · simp
  · show (wavePath.map fun p => p.1 + headLength).Chain' (· ≤ ·)
    rw [List.chain'_map]
    exact hc.imp fun a b hab => by have := dtwStep_mono hab; omega
  · show (wavePath.map fun p => p.2).Chain' (· ≤ ·)
    rw [List.chain'_map]
    exact hc.imp fun a b hab => by have := dtwStep_mono hab; omega
  · show (wavePath.map fun p => p.1 + headLength).head? = _
    rw [List.head?_map, hh]
    simp
  · show (wavePath.map fun p => p.1 + headLength).getLast? = _
    rw [List.getLast?_map, hl]
    simp [Nat.add_comm]
  · show (wavePath.map fun p => p.2).head? = _
    rw [List.head?_map, hh]
    simp
  · show (wavePath.map fun p => p.2).getLast? = _
    rw [List.getLast?_map, hl]
    simp

theorem c8_witness :
    (1 ≤ 2 ∧ 1 ≤ 1 ∧
      alignerComputePath DTWAlgorithm.exact (fun _ _ => (0 : ℤ)) 2 2 1 3 false =
        some ([3, 3, 4], [0, 1, 1])) ∧
    (∀ r, alignerComputePath DTWAlgorithm.exact (fun _ _ => (0 : ℤ)) 2 2 1 3 false =
        some r →
      r.1.length = r.2.length ∧
      r.1.Chain' (· ≤ ·) ∧
      r.2.Chain' (· ≤ ·) ∧
      r.1.head? = some 3 ∧
      r.1.getLast? = some (3 + (2 - 1)) ∧
      r.2.head? = some 0 ∧
      r.2.getLast? =
        some (match selectAlgorithm DTWAlgorithm.exact ((1 : Nat) : Int) 2 false with
          | .exact => 2 - 1
          | .stripe => stripeDeltaClamp 1 2 - 1 +
              stripeCenters 2 2 (stripeDeltaClamp 1 2) (2 - 1))) :=
  ⟨⟨by decide, by decide, by decide⟩,
    c8_amended DTWAlgorithm.exact (fun _ _ => (0 : ℤ)) 2 2 1 3 false
      (by decide) (by decide) (by decide)⟩

/-! ## Claim C9 -/

/-- Claim C9 counterexample: with `dtw_margin = 0` and
`mfcc_win_shift = 1/25` the derived `delta = ⌊0⌋ = 0` is non-positive, yet
the coordinator raises no validation error: `_setup_dtw` succeeds and hands
back the configured Stripe engine. -/
theorem c9_counterexample :
    setupDelta 0 (1 / 25) ≤ 0 ∧
    setupDtw true true DTWAlgorithm.stripe 0 (1 / 25) 10 false =
      Except.ok (DTWAlgorithm.stripe, 0) := by
  have hdelta : setupDelta 0 (1 / 25) = 0 := by
    simp [setupDelta]
  constructor
  · rw [hdelta]
  · simp only [setupDtw, selectAlgorithm, hdelta]
    norm_num

/-- Claim C9 (amended): the coordinator performs no validation of `delta`:
when both inputs are initialized and the derived
`delta = ⌊2·dtw_margin/mfcc_win_shift⌋` is non-positive (and `m ≥ 1`),
`_setup_dtw` succeeds, keeps the configured algorithm (the `m ≤ delta`
fallback cannot fire) and hands the non-positive `delta` to the engine; no
`InvalidInput` error is raised at the entry point. -/
theorem c9_amended (alg : DTWAlgorithm) (dtwMargin mfccWinShift : ℚ) (m : Nat)
    (cExt : Bool) (hm : 1 ≤ m) (hd : setupDelta dtwMargin mfccWinShift ≤ 0) :
    setupDtw true true alg dtwMargin mfccWinShift m cExt =
      Except.ok (alg, setupDelta dtwMargin mfccWinShift) := by
  simp only [setupDtw, selectAlgorithm]
  rw [if_neg (by simp), if_neg (by simp), if_neg (by omega)]

theorem c9_witness :
    (1 ≤ 10 ∧ setupDelta 0 (1 / 25) ≤ 0) ∧
    setupDtw true true DTWAlgorithm.exact 0 (1 / 25) 10 true =
      Except.ok (DTWAlgorithm.exact, setupDelta 0 (1 / 25)) := by
  have hdelta : setupDelta 0 (1 / 25) = 0 := by simp [setupDelta]
  exact ⟨⟨by omega, by rw [hdelta]⟩,
    c9_amended DTWAlgorithm.exact 0 (1 / 25) 10 true (by omega) (by rw [hdelta])⟩

/-! ## Heap model and the frame property (claim C10)

This section models the mutation of `_compute_acm_in_place` explicitly: a
heap is a list of matrices addressed by position; the engines read the two
input MFCC matrices from the heap, allocate a fresh cost matrix (numpy
allocates fresh arrays for `transpose().dot()`, `1 - ...` and
`numpy.zeros`), run the in-place accumulation by writing cells of the fresh
matrix, and backtrack by reads only.  The frame property states that the
heap at the input addresses is unchanged.  The scalar cost kernel is a
parameter, and the `centers` array — freshly allocated by `numpy.zeros(n)`
and never aliasing the inputs — is kept as a pure value. -/

abbrev HeapMat (β : Type) := List (List β)

abbrev Heap (β : Type) := List (HeapMat β)

def hread {β : Type} (h : Heap β) (a : Nat) : HeapMat β := h.getD a []

def hwrite {β : Type} (h : Heap β) (a : Nat) (v : HeapMat β) : Heap β := h.set a v

def halloc {β : Type} (h : Heap β) (v : HeapMat β) : Heap β × Nat :=
  (h ++ [v], h.length)

def cellRead {β : Type} [Zero β] (h : Heap β) (a i j : Nat) : β :=
  ((hread h a).getD i []).getD j 0

def cellWrite {β : Type} (h : Heap β) (a i j : Nat) (x : β) : Heap β :=
  hwrite h a ((hread h a).set i (((hread h a).getD i []).set j x))

/-- The full Exact cost matrix read off the heap (lines 545-562; the scalar
kernel is a parameter). -/
def exactCostMatrixH {β : Type} [Zero β] (kernel : List β → List β → β)
    (h : Heap β) (a1 a2 : Nat) : HeapMat β :=
  let n := ((hread h a1).getD 0 []).length
  let m := ((hread h a2).getD 0 []).length
  (List.range n).map fun i => (List.range m).map fun j =>
    kernel (column ((hread h a1).drop 1) i) (column ((hread h a2).drop 1) j)

/-- First-row loop of the in-place accumulation (lines 577-578 and 421-422):
after `t` iterations the cells `(0, 1) … (0, t)` have been overwritten. -/
def acmRow0LoopH {β : Type} [Zero β] [Add β] (ac : Nat) (curRow : List β) :
    Heap β → Nat → Heap β
  | h, 0 => h
  | h, j + 1 =>
      let h' := acmRow0LoopH ac curRow h j
      cellWrite h' ac 0 (j + 1) (curRow.getD (j + 1) 0 + cellRead h' ac 0 j)

/-- Inner loop of the Exact in-place accumulation for row `i` (lines
582-587). -/
def acmRowLoopH {β : Type} [Zero β] [Add β] [LinearOrder β]
    (ac i : Nat) (curRow : List β) : Heap β → Nat → Heap β
  | h, 0 => h
  | h, j + 1 =>
      let h' := acmRowLoopH ac i curRow h j
      cellWrite h' ac i (j + 1) (curRow.getD (j + 1) 0 +
        min (cellRead h' ac (i - 1) (j + 1))
          (min (cellRead h' ac i j) (cellRead h' ac (i - 1) j)))

/-- Outer loop of the Exact in-place accumulation (lines 579-587): row `i`
is recomputed from the copy `current_row` taken before its cells are
overwritten. -/
def acmOuterLoopH {β : Type} [Zero β] [Add β] [LinearOrder β] (ac m : Nat) :
    Heap β → Nat → Heap β
  | h, 0 => h
  | h, i + 1 =>
      let h' := acmOuterLoopH ac m h i
      let curRow := (hread h' ac).getD (i + 1) []
      let h'' := cellWrite h' ac (i + 1) 0 (cellRead h' ac i 0 + curRow.getD 0 0)
      acmRowLoopH ac (i + 1) curRow h'' (m - 1)

/-- `DTWExact._compute_acm_in_place` on the heap matrix at address `ac`. -/
def acmInPlaceH {β : Type} [Zero β] [Add β] [LinearOrder β]
    (h : Heap β) (ac : Nat) : Heap β :=
  let n := (hread h ac).length
  let m := ((hread h ac).getD 0 []).length
  let h1 := acmRow0LoopH ac ((hread h ac).getD 0 []) h (m - 1)
  acmOuterLoopH ac m h1 (n - 1)

/-- `DTWExact.compute_accumulated_cost_matrix` on the heap: allocate the
fresh cost matrix from the inputs at `a1`, `a2`, then accumulate it in
place.  Returns the heap and the address of the result. -/
def computeAcmH {α : Type} [LinearOrderedAddCommGroup α]
    (kernel : List α → List α → α) (h : Heap α) (a1 a2 : Nat) : Heap α × Nat :=
  let p := halloc h (exactCostMatrixH kernel h a1 a2)
  (acmInPlaceH p.1 p.2, p.2)

/-- `DTWExact.compute_path` on the heap: accumulate, then backtrack (reads
only). -/
def computePathH {α : Type} [LinearOrderedAddCommGroup α]
    (kernel : List α → List α → α) (h : Heap α) (a1 a2 : Nat) :
    Heap α × List (Nat × Nat) :=
  let p := computeAcmH kernel h a1 a2
  let n := (hread p.1 p.2).length
  let m := ((hread p.1 p.2).getD 0 []).length
  (p.1, computeBestPath (fun i j => cellRead p.1 p.2 i j) n m)

/-- Inner loop of `DTWStripe._compute_cost_matrix` for row `i` (lines
401-404): fills the `delta` local columns of row `i` of the banded cost
matrix from reads of the inputs. -/
def stripeRowLoopH {β : Type} [Zero β] (kernel : List β → List β → β)
    (a1 a2 ac i rs : Nat) : Heap β → Nat → Heap β
  | h, 0 => h
  | h, c + 1 =>
      let h' := stripeRowLoopH kernel a1 a2 ac i rs h c
      cellWrite h' ac i c (kernel (column ((hread h' a1).drop 1) i)
        (column ((hread h' a2).drop 1) (rs + c)))

/-- Outer loop of `DTWStripe._compute_cost_matrix` (lines 390-404). -/
def stripeCostOuterH {β : Type} [Zero β] (kernel : List β → List β → β)
    (a1 a2 ac n m delta : Nat) : Heap β → Nat → Heap β
  | h, 0 => h
  | h, i + 1 =>
      let h' := stripeCostOuterH kernel a1 a2 ac n m delta h i
      stripeRowLoopH kernel a1 a2 ac i (stripeCenters n m delta i) h' delta

/-- Inner loop of `DTWStripe._compute_acm_in_place` for row `i` (lines
427-437), with the `numpy.inf` guards. -/
def stripeAcmRowLoopH {α : Type} [LinearOrderedAddCommGroup α]
    (ac i : Nat) (curRow : List (WithTop α)) (off : Int) (delta : Nat) :
    Heap (WithTop α) → Nat → Heap (WithTop α)
  | h, 0 => h
  | h, c + 1 =>
      let h' := stripeAcmRowLoopH ac i curRow off delta h c
      let c0 : WithTop α := if (c : Int) + off < (delta : Int) then
          cellRead h' ac (i - 1) (((c : Int) + off).toNat) else ⊤
      let c1 : WithTop α := if 0 < c then cellRead h' ac i (c - 1) else ⊤
      let c2 : WithTop α := if ((c : Int) + off - 1 < (delta : Int)) ∧
          (0 ≤ (c : Int) + off - 1) then
          cellRead h' ac (i - 1) (((c : Int) + off - 1).toNat) else ⊤
      cellWrite h' ac i c (curRow.getD c 0 + min c0 (min c1 c2))

/-- Outer loop of `DTWStripe._compute_acm_in_place` (lines 424-437). -/
def stripeAcmOuterH {α : Type} [LinearOrderedAddCommGroup α]
    (ac : Nat) (centers : Nat → Nat) (delta : Nat) :
    Heap (WithTop α) → Nat → Heap (WithTop α)
  | h, 0 => h
  | h, i + 1 =>
      let h' := stripeAcmOuterH ac centers delta h i
      let curRow := (hread h' ac).getD (i + 1) []
      stripeAcmRowLoopH ac (i + 1) curRow
        ((centers (i + 1) : Int) - (centers i : Int)) delta h' delta

/-- `DTWStripe._compute_acm_in_place` on the heap matrix at `ac`. -/
def stripeAcmInPlaceH {α : Type} [LinearOrderedAddCommGroup α]
    (h : Heap (WithTop α)) (ac : Nat) (centers : Nat → Nat) :
    Heap (WithTop α) :=
  let n := (hread h ac).length
  let delta := ((hread h ac).getD 0 []).length
  let h1 := acmRow0LoopH ac ((hread h ac).getD 0 []) h (delta - 1)
  stripeAcmOuterH ac centers delta h1 (n - 1)

/-- `DTWStripe.compute_accumulated_cost_matrix` on the heap: allocate the
zero-filled `(n, delta)` banded matrix, fill it from the inputs, accumulate
in place. -/
def stripeComputeAcmH {α : Type} [LinearOrderedAddCommGroup α]
    (kernel : List (WithTop α) → List (WithTop α) → WithTop α)
    (h : Heap (WithTop α)) (a1 a2 delta0 : Nat) : Heap (WithTop α) × Nat :=
  let n := ((hread h a1).getD 0 []).length
  let m := ((hread h a2).getD 0 []).length
  let delta := stripeDeltaClamp delta0 m
  let p := halloc h ((List.range n).map fun _ =>
    (List.range delta).map fun _ => (0 : WithTop α))
  let h1 := stripeCostOuterH kernel a1 a2 p.2 n m delta p.1 n
  (stripeAcmInPlaceH h1 p.2 (stripeCenters n m delta), p.2)

/-- `DTWStripe.compute_path` on the heap: accumulate, then backtrack (reads
only). -/
def stripeComputePathH {α : Type} [LinearOrderedAddCommGroup α]
    (kernel : List (WithTop α) → List (WithTop α) → WithTop α)
    (h : Heap (WithTop α)) (a1 a2 delta0 : Nat) :
    Heap (WithTop α) × List (Nat × Nat) :=
  let n := ((hread h a1).getD 0 []).length
  let m := ((hread h a2).getD 0 []).length
  let delta := stripeDeltaClamp delta0 m
  let p := stripeComputeAcmH kernel h a1 a2 delta0
  (p.1, computeBestPathStripe (fun i k => cellRead p.1 p.2 i k)
    (stripeCenters n m delta) delta n)

/-! Frame lemmas: every write of the pipelines targets the freshly
allocated address, so the heap at any other address is untouched. -/

theorem hread_hwrite_ne {β : Type} (h : Heap β) (a b : Nat) (v : HeapMat β)
    (hne : a ≠ b) : hread (hwrite h b v) a = hread h a := by
  unfold hread hwrite
  by_cases hb : b < h.length
  · rw [List.getD_eq_getElem?_getD, List.getD_eq_getElem?_getD,
      List.getElem?_set_ne (by omega)]
  · rw [List.set_eq_of_length_le (by omega)]

theorem hread_cellWrite_ne {β : Type} (h : Heap β) (a b i j : Nat) (x : β)
    (hne : a ≠ b) : hread (cellWrite h b i j x) a = hread h a :=
  hread_hwrite_ne h a b _ hne

theorem hread_halloc {β : Type} (h : Heap β) (v : HeapMat β) (a : Nat)
    (ha : a < h.length) : hread (h ++ [v]) a = hread h a := by
  unfold hread
  rw [List.getD_eq_getElem?_getD, List.getD_eq_getElem?_getD,
    List.getElem?_append_left ha]

theorem acmRow0LoopH_frame {β : Type} [Zero β] [Add β] (ac : Nat)
    (curRow : List β) (a : Nat) (hne : a ≠ ac) :
    ∀ t h, hread (acmRow0LoopH ac curRow h t) a = hread h a := by
  intro t
  induction t with
  | zero => intro h; rfl
  | succ t ih =>
      intro h
      show hread (cellWrite (acmRow0LoopH ac curRow h t) ac 0 (t + 1) _) a = _
      rw [hread_cellWrite_ne _ _ _ _ _ _ hne, ih h]

theorem acmRowLoopH_frame {β : Type} [Zero β] [Add β] [LinearOrder β]
    (ac i : Nat) (curRow : List β) (a : Nat) (hne : a ≠ ac) :
    ∀ t h, hread (acmRowLoopH ac i curRow h t) a = hread h a := by
  intro t
  induction t with
  | zero => intro h; rfl
  | succ t ih =>
      intro h
      show hread (cellWrite (acmRowLoopH ac i curRow h t) ac i (t + 1) _) a = _
      rw [hread_cellWrite_ne _ _ _ _ _ _ hne, ih h]

theorem acmOuterLoopH_frame {β : Type} [Zero β] [Add β] [LinearOrder β]
    (ac m : Nat) (a : Nat) (hne : a ≠ ac) :
    ∀ (t : Nat) (h : Heap β), hread (acmOuterLoopH ac m h t) a = hread h a := by
  intro t
  induction t with
  | zero => intro h; rfl
  | succ t ih =>
      intro h
      simp only [acmOuterLoopH]
      rw [acmRowLoopH_frame _ _ _ a hne, hread_cellWrite_ne _ _ _ _ _ _ hne, ih h]

theorem acmInPlaceH_frame {β : Type} [Zero β] [Add β] [LinearOrder β]
    (h : Heap β) (ac : Nat) (a : Nat) (hne : a ≠ ac) :
    hread (acmInPlaceH h ac) a = hread h a := by
  simp only [acmInPlaceH]
  rw [acmOuterLoopH_frame _ _ a hne, acmRow0LoopH_frame _ _ a hne]

theorem stripeRowLoopH_frame {β : Type} [Zero β] (kernel : List β → List β → β)
    (a1 a2 ac i rs : Nat) (a : Nat) (hne : a ≠ ac) :
    ∀ t h, hread (stripeRowLoopH kernel a1 a2 ac i rs h t) a = hread h a := by
  intro t
  induction t with
  | zero => intro h; rfl
  | succ t ih =>
      intro h
      show hread (cellWrite (stripeRowLoopH kernel a1 a2 ac i rs h t) ac i t _) a = _
      rw [hread_cellWrite_ne _ _ _ _ _ _ hne, ih h]

theorem stripeCostOuterH_frame {β : Type} [Zero β] (kernel : List β → List β → β)
    (a1 a2 ac n m delta : Nat) (a : Nat) (hne : a ≠ ac) :
    ∀ t h, hread (stripeCostOuterH kernel a1 a2 ac n m delta h t) a = hread h a := by
  intro t
  induction t with
  | zero => intro h; rfl
  | succ t ih =>
      intro h
      simp only [stripeCostOuterH]
      rw [stripeRowLoopH_frame kernel a1 a2 ac t _ a hne, ih h]

theorem stripeAcmRowLoopH_frame {α : Type} [LinearOrderedAddCommGroup α]
    (ac i : Nat) (curRow : List (WithTop α)) (off : Int) (delta : Nat)
    (a : Nat) (hne : a ≠ ac) :
    ∀ t h, hread (stripeAcmRowLoopH ac i curRow off delta h t) a = hread h a := by
  intro t
  induction t with
  | zero => intro h; rfl
  | succ t ih =>
      intro h
      show hread (cellWrite (stripeAcmRowLoopH ac i curRow off delta h t) ac i t _) a = _
      rw [hread_cellWrite_ne _ _ _ _ _ _ hne, ih h]

theorem stripeAcmOuterH_frame {α : Type} [LinearOrderedAddCommGroup α]
    (ac : Nat) (centers : Nat → Nat) (delta : Nat) (a : Nat) (hne : a ≠ ac) :
    ∀ t h, hread (stripeAcmOuterH (α := α) ac centers delta h t) a = hread h a := by
  intro t
  induction t with
  | zero => intro h; rfl
  | succ t ih =>
      intro h
      simp only [stripeAcmOuterH]
      rw [stripeAcmRowLoopH_frame _ _ _ _ _ a hne, ih h]

theorem stripeAcmInPlaceH_frame {α : Type} [LinearOrderedAddCommGroup α]
    (h : Heap (WithTop α)) (ac : Nat) (centers : Nat → Nat) (a : Nat)
    (hne : a ≠ ac) : hread (stripeAcmInPlaceH h ac centers) a = hread h a := by
  simp only [stripeAcmInPlaceH]
  rw [stripeAcmOuterH_frame _ _ _ a hne, acmRow0LoopH_frame _ _ a hne]

theorem computeAcmH_frame {α : Type} [LinearOrderedAddCommGroup α]
    (kernel : List α → List α → α) (h : Heap α) (a1 a2 a : Nat)
    (ha : a < h.length) :
    hread (computeAcmH kernel h a1 a2).1 a = hread h a := by
  simp only [computeAcmH, halloc]
  rw [acmInPlaceH_frame _ _ a (by omega), hread_halloc h _ a ha]

theorem stripeComputeAcmH_frame {α : Type} [LinearOrderedAddCommGroup α]
    (kernel : List (WithTop α) → List (WithTop α) → WithTop α)
    (h : Heap (WithTop α)) (a1 a2 delta0 a : Nat) (ha : a < h.length) :
    hread (stripeComputeAcmH kernel h a1 a2 delta0).1 a = hread h a := by
  simp only [stripeComputeAcmH, halloc]
  rw [stripeAcmInPlaceH_frame _ _ _ a (by omega),
    stripeCostOuterH_frame kernel a1 a2 h.length _ _ _ a (by omega),
    hread_halloc h _ a ha]

/-- Claim C10: neither engine modifies its input MFCC matrices.  In both
Exact and Stripe, `compute_accumulated_cost_matrix` and `compute_path`
perform all writes on the freshly allocated cost matrix (the backtracking
only reads), so the heap at the addresses of the caller's `m1` and `m2` is
element-wise unchanged after every call. -/
theorem c10_frame {α : Type} [LinearOrderedAddCommGroup α]
    (kernel : List α → List α → α)
    (kernelS : List (WithTop α) → List (WithTop α) → WithTop α)
    (h : Heap α) (hs : Heap (WithTop α)) (a1 a2 b1 b2 delta0 : Nat)
    (ha1 : a1 < h.length) (ha2 : a2 < h.length)
    (hb1 : b1 < hs.length) (hb2 : b2 < hs.length) :
    (hread (computeAcmH kernel h a1 a2).1 a1 = hread h a1 ∧
      hread (computeAcmH kernel h a1 a2).1 a2 = hread h a2) ∧
    (hread (computePathH kernel h a1 a2).1 a1 = hread h a1 ∧
      hread (computePathH kernel h a1 a2).1 a2 = hread h a2) ∧
    (hread (stripeComputeAcmH kernelS hs b1 b2 delta0).1 b1 = hread hs b1 ∧
      hread (stripeComputeAcmH kernelS hs b1 b2 delta0).1 b2 = hread hs b2) ∧
    (hread (stripeComputePathH kernelS hs b1 b2 delta0).1 b1 = hread hs b1 ∧
      hread (stripeComputePathH kernelS hs b1 b2 delta0).1 b2 = hread hs b2) :=
  ⟨⟨computeAcmH_frame kernel h a1 a2 a1 ha1, computeAcmH_frame kernel h a1 a2 a2 ha2⟩,
    ⟨computeAcmH_frame kernel h a1 a2 a1 ha1, computeAcmH_frame kernel h a1 a2 a2 ha2⟩,
    ⟨stripeComputeAcmH_frame kernelS hs b1 b2 delta0 b1 hb1,
      stripeComputeAcmH_frame kernelS hs b1 b2 delta0 b2 hb2⟩,
    ⟨stripeComputeAcmH_frame kernelS hs b1 b2 delta0 b1 hb1,
      stripeComputeAcmH_frame kernelS hs b1 b2 delta0 b2 hb2⟩⟩

theorem c10_witness :
    (hread (computeAcmH (fun u v => u.headD 0 + v.headD 0)
        [[[(1 : ℤ), 2], [3, 4]], [[5, 6], [7, 8]]] 0 1).1 0 =
      hread [[[(1 : ℤ), 2], [3, 4]], [[5, 6], [7, 8]]] 0 ∧
      hread (computeAcmH (fun u v => u.headD 0 + v.headD 0)
          [[[(1 : ℤ), 2], [3, 4]], [[5, 6], [7, 8]]] 0 1).1 1 =
        hread [[[(1 : ℤ), 2], [3, 4]], [[5, 6], [7, 8]]] 1) ∧
    (hread (computePathH (fun u v => u.headD 0 + v.headD 0)
        [[[(1 : ℤ), 2], [3, 4]], [[5, 6], [7, 8]]] 0 1).1 0 =
      hread [[[(1 : ℤ), 2], [3, 4]], [[5, 6], [7, 8]]] 0 ∧
      hread (computePathH (fun u v => u.headD 0 + v.headD 0)
          [[[(1 : ℤ), 2], [3, 4]], [[5, 6], [7, 8]]] 0 1).1 1 =
        hread [[[(1 : ℤ), 2], [3, 4]], [[5, 6], [7, 8]]] 1) ∧
    (hread (stripeComputeAcmH (fun _ _ => ((1 : ℤ) : WithTop ℤ))
        [[[((1 : ℤ) : WithTop ℤ), ((2 : ℤ) : WithTop ℤ)]],
          [[((3 : ℤ) : WithTop ℤ), ((4 : ℤ) : WithTop ℤ)]]] 0 1 1).1 0 =
      hread [[[((1 : ℤ) : WithTop ℤ), ((2 : ℤ) : WithTop ℤ)]],
        [[((3 : ℤ) : WithTop ℤ), ((4 : ℤ) : WithTop ℤ)]]] 0 ∧
      hread (stripeComputeAcmH (fun _ _ => ((1 : ℤ) : WithTop ℤ))
          [[[((1 : ℤ) : WithTop ℤ), ((2 : ℤ) : WithTop ℤ)]],
            [[((3 : ℤ) : WithTop ℤ), ((4 : ℤ) : WithTop ℤ)]]] 0 1 1).1 1 =
        hread [[[((1 : ℤ) : WithTop ℤ), ((2 : ℤ) : WithTop ℤ)]],
          [[((3 : ℤ) : WithTop ℤ), ((4 : ℤ) : WithTop ℤ)]]] 1) ∧
    (hread (stripeComputePathH (fun _ _ => ((1 : ℤ) : WithTop ℤ))
        [[[((1 : ℤ) : WithTop ℤ), ((2 : ℤ) : WithTop ℤ)]],
          [[((3 : ℤ) : WithTop ℤ), ((4 : ℤ) : WithTop ℤ)]]] 0 1 1).1 0 =
      hread [[[((1 : ℤ) : WithTop ℤ), ((2 : ℤ) : WithTop ℤ)]],
        [[((3 : ℤ) : WithTop ℤ), ((4 : ℤ) : WithTop ℤ)]]] 0 ∧
      hread (stripeComputePathH (fun _ _ => ((1 : ℤ) : WithTop ℤ))
          [[[((1 : ℤ) : WithTop ℤ), ((2 : ℤ) : WithTop ℤ)]],
            [[((3 : ℤ) : WithTop ℤ), ((4 : ℤ) : WithTop ℤ)]]] 0 1 1).1 1 =
        hread [[[((1 : ℤ) : WithTop ℤ), ((2 : ℤ) : WithTop ℤ)]],
          [[((3 : ℤ) : WithTop ℤ), ((4 : ℤ) : WithTop ℤ)]]] 1) :=
  c10_frame (fun u v => u.headD 0 + v.headD 0) (fun _ _ => ((1 : ℤ) : WithTop ℤ))
    [[[(1 : ℤ), 2], [3, 4]], [[5, 6], [7, 8]]]
    [[[((1 : ℤ) : WithTop ℤ), ((2 : ℤ) : WithTop ℤ)]],
      [[((3 : ℤ) : WithTop ℤ), ((4 : ℤ) : WithTop ℤ)]]] 0 1 0 1 1
    (by decide) (by decide) (by decide) (by decide)

end AeneasDTW
